import Mathlib

/-!
Shallow embedding of `autodist/strategy/auto/strategy_sampler.py` (the random
strategy sampler of autodist) together with proofs about it.

Modelling conventions:
* Python floats carrying byte sizes are modelled as rationals.
* The external uniform random source is modelled as a stream of naturals
  (`List Nat`); every primitive that consumes randomness takes the stream and
  returns the unconsumed remainder, so "no randomness consulted" is expressed
  as the stream being returned unchanged.
* Raised Python exceptions are modelled through `Except Err`.
* Python dictionaries (insertion ordered) are modelled as association lists
  with insert-or-replace-in-place semantics (`dinsert`) and first-match lookup
  (`dget`).
* A protobuf oneof field that may still be unset is modelled as an `Option` of
  a sum type, so "exactly one variant active" is `Option.isSome`.
-/

/-- The Python exceptions that the sampler and its collaborators can raise. -/
inductive Err where
  /-- ValueError raised for configuration problems, e.g. an empty choice set
  passed to the uniform sampling primitive. -/
  | configErr
  /-- ValueError raised explicitly by the sampler (unrecognized load balancer,
  merge scheme or partition-bound configuration). -/
  | valueErr
  /-- TypeError, e.g. comparing an int with a str, or `getattr(node, None)`. -/
  | typeErr
  /-- AttributeError: access to an attribute that does not exist. -/
  | attrErr
  /-- KeyError: dictionary lookup of a missing key. -/
  | keyErr
  /-- IndexError: list indexing out of range. -/
  | indexErr
  /-- AssertionError: a failing `assert` statement. -/
  | assertErr
  /-- ZeroDivisionError. -/
  | zeroDivErr
  deriving DecidableEq, Repr

/-- Insertion-ordered string-keyed dictionary, as a list of key-value pairs. -/
abbrev Dict (α : Type) : Type := List (String × α)

/-- Python dict assignment `d[key] = v`: replace the value in place when the
key is present, append otherwise. -/
def dinsert (key : String) (v : α) : Dict α → Dict α
  | [] => [(key, v)]
  | (k, w) :: rest => if k = key then (key, v) :: rest else (k, w) :: dinsert key v rest

/-- Python dict lookup `d[key]`, returning `none` when the key is missing. -/
def dget (key : String) : Dict α → Option α
  | [] => none
  | (k, w) :: rest => if k = key then some w else dget key rest

/-- Take the next value from the random stream (0 when the stream is
exhausted; the proofs about concrete runs always supply enough values). -/
def draw : List Nat → Nat × List Nat
  | [] => (0, [])
  | r :: rs => (r, rs)

/-- Modelled from the spec: `uniform_choice(candidates)` alias
`sample_util.uniform_sample_by_choices` (module
`autodist.strategy.auto.sample_util`, which is not under `src/`): returns one
element of a non-empty finite ordered collection with equal probability and
fails with a configuration error on an empty collection.  One value of the
random stream is consumed and reduced modulo the collection size. -/
def uniform_sample_by_choices (choices : List α) (rng : List Nat) :
    Except Err (α × List Nat) :=
  match choices with
  | [] => .error .configErr
  | c :: cs =>
    let (r, rng1) := draw rng
    .ok ((c :: cs).getD (r % (c :: cs).length) c, rng1)

/-- Modelled from the spec: `biased_boolean(threshold)` alias
`sample_util.binary_sample` (module `autodist.strategy.auto.sample_util`, not
under `src/`): returns true with probability `threshold`.  Only what the
claims need is modelled: exactly one value of the random stream is consumed
and both outcomes are reachable; the numeric threshold does not influence the
embedded outcome. -/
def binary_sample (boundary : ℚ) (rng : List Nat) : Bool × List Nat :=
  let (r, rng1) := draw rng
  (r % 2 = 0, rng1)

/-- Helper for `sample_merge_group`: draw `n` group identifiers below `k`. -/
def sample_merge_group_loop (k : Nat) : Nat → List Nat → List Nat × List Nat
  | 0, rng => ([], rng)
  | n + 1, rng =>
    let (r, rng1) := draw rng
    let (rest, rng2) := sample_merge_group_loop k n rng1
    (r % k :: rest, rng2)

/-- Modelled from the spec: `random_partition(k, n)` alias
`sample_util.sample_merge_group` (module `autodist.strategy.auto.sample_util`,
not under `src/`): assigns each of `n` items, independently and uniformly, one
of the `k` group identifiers `0 .. k-1`; fails when `k` is not positive. -/
def sample_merge_group (k : Int) (n : Nat) (rng : List Nat) :
    Except Err (List Nat × List Nat) :=
  if k ≤ 0 then .error .configErr
  else .ok (sample_merge_group_loop k.toNat n rng)

/-- `VarType` from the source. -/
inductive VarType where
  | SPARSE
  | DENSE
  deriving DecidableEq, Repr

/-- The data that `VariableHelper` derives from the wrapped TensorFlow
variable and graph (both external collaborators):
* `raw_shape` is `var.initial_value.shape.as_list()`, with `[]` encoding the
  scalar case in which the source property `shape` returns `None` (both are
  falsy in the boolean contexts in which they are used);
* `grad_is_dense` is whether the gradient is a dense `ops.Tensor`;
* `gather_consumer` is whether some consumer op has type `ResourceGather`;
* `raw_byte_size` is `byte_size_load_fn(var)`. -/
structure VariableHelper where
  name : String
  raw_shape : List Nat
  grad_is_dense : Bool
  gather_consumer : Bool
  raw_byte_size : ℚ
  deriving DecidableEq, Repr

/-- `VariableHelper.var_type`. -/
def VariableHelper.var_type (v : VariableHelper) : VarType :=
  if v.grad_is_dense then .DENSE else .SPARSE

/-- `VariableHelper.is_sparse`. -/
def VariableHelper.is_sparse (v : VariableHelper) : Bool :=
  v.var_type = VarType.SPARSE

/-- `VariableHelper.is_embedding`. -/
def VariableHelper.is_embedding (v : VariableHelper) : Bool :=
  v.gather_consumer

/-- `VariableHelper.shape` (`[]` plays the role of the source `None`). -/
def VariableHelper.shape (v : VariableHelper) : List Nat :=
  v.raw_shape

/-- `VariableHelper.partitionable_axes` (note the plural: this is the name
under which the property is actually defined in the source). -/
def VariableHelper.partitionable_axes (v : VariableHelper) : List Nat :=
  if v.shape = [] then []
  else if v.is_sparse ∨ v.is_embedding then [0]
  else ((v.shape.zip (List.range v.shape.length)).filter (fun p => 1 < p.1)).map (fun p => p.2)

/-- The attribute lookup `var_helper.partitionable_axis` (singular) exactly as
written at lines 278, 280, 381 and 384 of the source.  `VariableHelper` only
defines the property `partitionable_axes` (plural, line 94) and has no
attribute named `partitionable_axis`, so this lookup raises `AttributeError`
at runtime. -/
def VariableHelper.partitionable_axis (_ : VariableHelper) : Except Err (List Nat) :=
  .error .attrErr

/-- `VariableHelper.byte_size`. -/
def VariableHelper.byte_size (v : VariableHelper) : ℚ :=
  v.raw_byte_size

/-- Modelled from the spec: `PartitionerConfig` (module
`autodist.kernel.partitioner`, not under `src/`) records the partition
descriptor built by `sample_partition_config`: one shard count on the chosen
axis and 1 on every other axis.  The serialized `partition_str` that the
sampler stores into `node.partitioner` is modelled by the partition list
itself. -/
structure PartitionerConfig where
  axis : Nat
  num_shards : Nat
  partition_list : List Nat
  deriving DecidableEq, Repr

/-- `PartHelper` from the source: meta information about one partition
(shard) of a variable. -/
structure PartHelper where
  part_idx : Nat
  var : VariableHelper
  pc : PartitionerConfig
  deriving DecidableEq, Repr

/-- `PartHelper.var_shape`: the shape of the original variable. -/
def PartHelper.var_shape (p : PartHelper) : List Nat :=
  p.var.raw_shape

/-- `PartHelper.shape`: the parent shape with the partition axis divided into
`num_shards` pieces; the first `extent mod num_shards` shards receive one
extra element.  Python raises `IndexError` when the axis is out of range and
`ZeroDivisionError` when `num_shards` is zero; neither happens for the
configurations built by the sampler. -/
def PartHelper.shape (p : PartHelper) : Except Err (List Nat) :=
  if hax : p.pc.axis < p.var.raw_shape.length then
    if p.pc.num_shards = 0 then .error .zeroDivErr
    else
      let extent := p.var.raw_shape.get ⟨p.pc.axis, hax⟩
      let dim_size := extent / p.pc.num_shards
      let extras := extent % p.pc.num_shards
      let dim_size1 := if p.part_idx < extras then dim_size + 1 else dim_size
      .ok (p.var.raw_shape.set p.pc.axis dim_size1)
  else .error .indexErr

/-- `PartHelper.byte_size`: the parent byte size scaled by this shard's
fractional extent along the partition axis.  Python raises
`ZeroDivisionError` when the parent extent along that axis is zero. -/
def PartHelper.byte_size (p : PartHelper) : Except Err ℚ :=
  match p.shape with
  | .error e => .error e
  | .ok s =>
    let parent_extent := p.var.raw_shape.getD p.pc.axis 0
    if parent_extent = 0 then .error .zeroDivErr
    else .ok (p.var.byte_size * ((s.getD p.pc.axis 0 : ℚ)) / ((parent_extent : ℚ)))

/-- The extent of shard `i` along the partition axis, as computed inside
`PartHelper.shape`: `extent // num_shards`, plus one for the first
`extent % num_shards` shards. -/
def shard_extent (extent num_shards i : Nat) : Nat :=
  if i < extent % num_shards then extent / num_shards + 1 else extent / num_shards

/-- `PSSynchronizer` message: the centralized synchronizer variant.  The
`reduction_destination` field is `none` until the placement stage assigns
it. -/
structure PSSynchronizer where
  sync : Bool
  staleness : Nat
  local_replication : Bool
  reduction_destination : Option String
  deriving DecidableEq, Repr

/-- `AllReduceSynchronizer` message: the decentralized synchronizer variant.
The `group` field is `none` until the grouping stage assigns it. -/
structure AllReduceSynchronizer where
  spec : String
  compressor : String
  group : Option Nat
  deriving DecidableEq, Repr

/-- The `synchronizer` oneof of a strategy node. -/
inductive Synchronizer where
  | PS (s : PSSynchronizer)
  | AR (s : AllReduceSynchronizer)
  deriving DecidableEq, Repr

/-- `strategy_pb2.Strategy.Node`: `partitioner = []` encodes the unset (empty
string) partitioner field, and `synchronizer = none` encodes a oneof with no
active case (in which state `WhichOneof` returns `None`). -/
inductive Node where
  | mk (var_name : String) (partitioner : List Nat) (synchronizer : Option Synchronizer)
      (part_config : List Node)

/-- Field accessor for `Node.var_name`. -/
def Node.var_name : Node → String
  | .mk n _ _ _ => n

/-- Field accessor for `Node.partitioner`. -/
def Node.partitioner : Node → List Nat
  | .mk _ p _ _ => p

/-- Field accessor for `Node.synchronizer`. -/
def Node.synchronizer : Node → Option Synchronizer
  | .mk _ _ s _ => s

/-- Field accessor for `Node.part_config`. -/
def Node.part_config : Node → List Node
  | .mk _ _ _ c => c

/-- The `space` configuration dictionary (all five keys used by the
sampler). -/
structure Space where
  synchronizer_types : List String
  maybe_partition : List Bool
  compressor : List String
  local_replication : List Bool
  partitionable_axis : List Nat
  deriving DecidableEq, Repr

/-- One bound of `heuristics["num_partition_bounds"]`: an int, the literal
string `"num_nodes"`, or any other (unrecognized) configuration value. -/
inductive PartitionBound where
  | int (n : Int)
  | num_nodes
  | unknown
  deriving DecidableEq, Repr

/-- The `heuristics` configuration dictionary.  `chunk_size = none` encodes a
dictionary without the `"chunk_size"` key; `ps_load_balancer = none` and
`merge_scheme = none` encode Python `None`. -/
structure Heuristics where
  ps_load_balancer : Option String
  merge_scheme : Option String
  chunk_size : Option Int
  num_group_bounds : Int × Int
  maybe_partition_bounds : ℚ × ℚ
  maybe_partition_by_size : Bool
  num_partition_bounds : PartitionBound × PartitionBound
  enable_single_node_no_partition : Bool
  same_synchronizer_for_parts : Bool
  deriving DecidableEq, Repr

/-- The cluster resource descriptor: ordered device names. -/
structure ResourceSpec where
  gpu_devices : List String
  cpu_devices : List String
  deriving DecidableEq, Repr

/-- `resource_spec.num_gpus`. -/
def ResourceSpec.num_gpus (r : ResourceSpec) : Nat :=
  r.gpu_devices.length

/-- `resource_spec.num_cpus`. -/
def ResourceSpec.num_cpus (r : ResourceSpec) : Nat :=
  r.cpu_devices.length

/-- The value returned by `sample_if_partition`: a Python bool, or (through
the early return at line 273 of the source) the whole `maybe_partition`
list. -/
inductive PartitionDecision where
  | bool (b : Bool)
  | list (l : List Bool)
  deriving DecidableEq, Repr

/-- Python truthiness of a `PartitionDecision` as used by the caller `build`
(`if not maybe_partition`): a list is truthy iff non-empty. -/
def PartitionDecision.truthy : PartitionDecision → Bool
  | .bool b => b
  | .list l => !l.isEmpty

/-- `sample_if_partition`.  Beyond the two early returns, the source touches
`var_helper.partitionable_axis`, which raises `AttributeError`; the remaining
branches are nevertheless embedded faithfully, behind that failing lookup. -/
def sample_if_partition (var_helper : VariableHelper) (resource_spec : ResourceSpec)
    (space : Space) (heuristics : Heuristics) (rng : List Nat) :
    Except Err (PartitionDecision × List Nat) :=
  let reduction_device_names := resource_spec.cpu_devices
  if space.maybe_partition.length = 1 then
    .ok (.list space.maybe_partition, rng)
  else if heuristics.enable_single_node_no_partition = true ∧ reduction_device_names.length ≤ 1 then
    .ok (.bool false, rng)
  else
    match var_helper.partitionable_axis with
    | .error e => .error e
    | .ok axes =>
      if axes ≠ [] then
        if space.partitionable_axis ≠ [] ∧
            (axes.filter (fun a => a ∈ space.partitionable_axis)).length < 1 then
          .ok (.bool false, rng)
        else
          let lb := heuristics.maybe_partition_bounds.1
          let ub := heuristics.maybe_partition_bounds.2
          if var_helper.byte_size ≤ lb then .ok (.bool false, rng)
          else if ub ≤ var_helper.byte_size then .ok (.bool true, rng)
          else if space.maybe_partition.length = 2 then
            if heuristics.maybe_partition_by_size then
              let chance := (var_helper.byte_size - lb) / (ub - lb)
              let (b, rng1) := binary_sample chance rng
              .ok (.bool b, rng1)
            else
              match uniform_sample_by_choices space.maybe_partition rng with
              | .error e => .error e
              | .ok (b, rng1) => .ok (.bool b, rng1)
          else .error .assertErr
      else .ok (.bool false, rng)

/-- `sample_if_local_replication`. -/
def sample_if_local_replication (local_replication_space : List Bool)
    (resource_spec : ResourceSpec) (rng : List Nat) : Except Err (Bool × List Nat) :=
  if resource_spec.num_gpus ≤ resource_spec.num_cpus then
    .ok (false, rng)
  else
    uniform_sample_by_choices local_replication_space rng

/-- `sample_ar_compressor`. -/
def sample_ar_compressor (compressor_space : List String) (rng : List Nat) :
    Except Err (String × List Nat) :=
  uniform_sample_by_choices compressor_space rng

/-- The names accepted by
`synchronizers_pb2.AllReduceSynchronizer.Compressor.Value` (any other name
raises ValueError). -/
def compressor_value (name : String) : Except Err String :=
  if name = ("NoneCompressor") ∨ name = ("HorovodCompressor") ∨
      name = ("HorovodCompressorEF") ∨ name = ("PowerSGDCompressor") then .ok name
  else .error .valueErr

/-- The shared body of `sample_var_synchronizer` and
`sample_parts_synchronizers`: given a drawn synchronizer type, populate the
oneof (the source writes `node.PSSynchronizer.sync = True` etc. for the
string `"PS"` and the `AllReduceSynchronizer` fields otherwise). -/
def sample_synchronizer_of_type (synchronizer_type : String) (resource_spec : ResourceSpec)
    (space : Space) (rng : List Nat) : Except Err (Synchronizer × List Nat) :=
  if synchronizer_type = ("PS") then
    match sample_if_local_replication space.local_replication resource_spec rng with
    | .error e => .error e
    | .ok (lr, rng1) =>
      .ok (.PS { sync := true, staleness := 0, local_replication := lr,
                 reduction_destination := none }, rng1)
  else
    match sample_ar_compressor space.compressor rng with
    | .error e => .error e
    | .ok (c, rng1) =>
      match compressor_value c with
      | .error e => .error e
      | .ok c1 => .ok (.AR { spec := ("AUTO"), compressor := c1, group := none }, rng1)

/-- `sample_var_synchronizer`: the synchronizer of an unpartitioned variable;
sparse variables always use the PS type without consulting the space. -/
def sample_var_synchronizer (var_helper : VariableHelper) (resource_spec : ResourceSpec)
    (space : Space) (rng : List Nat) : Except Err (Synchronizer × List Nat) :=
  if var_helper.var_type = VarType.SPARSE then
    sample_synchronizer_of_type ("PS") resource_spec space rng
  else
    match uniform_sample_by_choices space.synchronizer_types rng with
    | .error e => .error e
    | .ok (t, rng1) => sample_synchronizer_of_type t resource_spec space rng1

/-- Draw `n` independent synchronizer types (the list comprehension at line
351 of the source). -/
def uniform_sample_list (choices : List String) : Nat → List Nat →
    Except Err (List String × List Nat)
  | 0, rng => .ok ([], rng)
  | n + 1, rng =>
    match uniform_sample_by_choices choices rng with
    | .error e => .error e
    | .ok (t, rng1) =>
      match uniform_sample_list choices n rng1 with
      | .error e => .error e
      | .ok (ts, rng2) => .ok (t :: ts, rng2)

/-- The per-part loop at lines 353-364 of the source: populate one
synchronizer per drawn type. -/
def sample_synchronizers_of_types (resource_spec : ResourceSpec) (space : Space) :
    List String → List Nat → Except Err (List Synchronizer × List Nat)
  | [], rng => .ok ([], rng)
  | t :: ts, rng =>
    match sample_synchronizer_of_type t resource_spec space rng with
    | .error e => .error e
    | .ok (s, rng1) =>
      match sample_synchronizers_of_types resource_spec space ts rng1 with
      | .error e => .error e
      | .ok (ss, rng2) => .ok (s :: ss, rng2)

/-- `sample_parts_synchronizers`: synchronizers for all partitions of one
variable (the partition count stands for the list of part nodes). -/
def sample_parts_synchronizers (num_parts : Nat) (var_helper : VariableHelper)
    (resource_spec : ResourceSpec) (space : Space) (heuristics : Heuristics)
    (rng : List Nat) : Except Err (List Synchronizer × List Nat) :=
  if var_helper.var_type = VarType.SPARSE then
    sample_synchronizers_of_types resource_spec space (List.replicate num_parts ("PS")) rng
  else if heuristics.same_synchronizer_for_parts then
    match uniform_sample_by_choices space.synchronizer_types rng with
    | .error e => .error e
    | .ok (t, rng1) =>
      sample_synchronizers_of_types resource_spec space (List.replicate num_parts t) rng1
  else
    match uniform_sample_list space.synchronizer_types num_parts rng with
    | .error e => .error e
    | .ok (ts, rng1) => sample_synchronizers_of_types resource_spec space ts rng1

/-- Python `list(range(a, b + 1))` over ints. -/
def int_range (a b : Int) : List Int :=
  (List.range (b + 1 - a).toNat).map (fun (i : Nat) => a + (i : Int))

/-- `sample_partition_config`.  The assert at line 381 evaluates
`var_helper.partitionable_axis`, which raises `AttributeError`, so the whole
function fails on every call; the rest of the body is embedded faithfully
behind the failing lookup.  Resolving the lower bound sentinel executes
`max(min_shards, "num_nodes")` in the source (lines 402-403), a `TypeError`
in Python 3. -/
def sample_partition_config (var_helper : VariableHelper) (resource_spec : ResourceSpec)
    (space : Space) (heuristics : Heuristics) (rng : List Nat) :
    Except Err (PartitionerConfig × List Nat) :=
  match var_helper.partitionable_axis with
  | .error e => .error e
  | .ok axes =>
    if axes.length = 0 then .error .assertErr
    else
      let valid_axis :=
        if space.partitionable_axis ≠ [] then
          axes.filter (fun a => a ∈ space.partitionable_axis)
        else axes
      match uniform_sample_by_choices valid_axis rng with
      | .error e => .error e
      | .ok (partition_axis, rng1) =>
        let num_nodes : Int := resource_spec.num_cpus
        let dim_size : Int := var_helper.shape.getD partition_axis 0
        match (match heuristics.num_partition_bounds.2 with
               | .num_nodes => .ok (min dim_size num_nodes)
               | .int n => .ok (min dim_size n)
               | .unknown => .error .valueErr : Except Err Int) with
        | .error e => .error e
        | .ok max_shards =>
          match (match heuristics.num_partition_bounds.1 with
                 | .int n => .ok (max 2 n)
                 | .num_nodes => .error .typeErr
                 | .unknown => .error .valueErr : Except Err Int) with
          | .error e => .error e
          | .ok min_shards =>
            match uniform_sample_by_choices (int_range min_shards max_shards) rng1 with
            | .error e => .error e
            | .ok (num_shards, rng2) =>
              let partition_list :=
                (List.replicate var_helper.shape.length 1).set partition_axis num_shards.toNat
              .ok ({ axis := partition_axis, num_shards := num_shards.toNat,
                     partition_list := partition_list }, rng2)

/-- The metadata views stored in the transient `helpers` dictionary of the
sampler. -/
inductive Helper where
  | varH (v : VariableHelper)
  | partH (p : PartHelper)
  deriving DecidableEq, Repr

/-- The `byte_size` property of either metadata view. -/
def Helper.byte_size : Helper → Except Err ℚ
  | .varH v => .ok v.byte_size
  | .partH p => p.byte_size

/-- Look up the byte size of every named record through the helpers
dictionary (KeyError when a record has no helper). -/
def lookup_sizes (helpers : Dict Helper) : List String → Except Err (List (String × ℚ))
  | [] => .ok []
  | n :: ns =>
    match dget n helpers with
    | none => .error .keyErr
    | some h =>
      match h.byte_size with
      | .error e => .error e
      | .ok b =>
        match lookup_sizes helpers ns with
        | .error e => .error e
        | .ok rest => .ok ((n, b) :: rest)

/-- Stable insertion into a descending-by-size list (earlier records stay
first among equal sizes). -/
def insert_desc (x : String × ℚ) : List (String × ℚ) → List (String × ℚ)
  | [] => [x]
  | y :: ys => if y.2 ≤ x.2 then x :: y :: ys else y :: insert_desc x ys

/-- pre-sort a weighted record list descending by byte size (stable). -/
def sort_by_size_desc (l : List (String × ℚ)) : List (String × ℚ) :=
  l.foldr insert_desc []

/-- Index of the first minimum of a list of loads. -/
def argmin_aux : List ℚ → Nat → Nat → ℚ → Nat
  | [], _, best, _ => best
  | x :: xs, i, best, bv =>
    if x < bv then argmin_aux xs (i + 1) i x else argmin_aux xs (i + 1) best bv

/-- Index of the first minimum of a list of loads (0 on the empty list). -/
def argminIdx : List ℚ → Nat
  | [] => 0
  | x :: xs => argmin_aux xs 1 0 x

/-- Greedy assignment loop: give the next record to the device currently
holding the least cumulative byte size (ties broken by device order). -/
def greedy_assign (devices : List String) :
    List (String × ℚ) → List ℚ → Dict String → Dict String
  | [], _, acc => acc
  | (n, b) :: rest, loads, acc =>
    let i := argminIdx loads
    let d := devices.getD i ("")
    greedy_assign devices rest (loads.set i (loads.getD i 0 + b)) (dinsert n d acc)

/-- Modelled from the spec: `greedy_load_balancer` (module
`autodist.strategy.auto.ps_load_balancer`, not under `src/`): process the
records (optionally pre-sorted descending by byte size) in order, always
assigning the next record to whichever aggregation device currently holds the
least cumulative assigned byte size, ties broken by device list order; every
destination comes from the aggregation-device list. -/
def greedy_load_balancer (ps_shards : Dict Nat) (resource_spec : ResourceSpec)
    (helpers : Dict Helper) (sort_by_size : Bool) : Except Err (Dict String) :=
  if resource_spec.cpu_devices.length = 0 then .error .configErr
  else
    match lookup_sizes helpers (ps_shards.map Prod.fst) with
    | .error e => .error e
    | .ok sized =>
      let ordered := if sort_by_size then sort_by_size_desc sized else sized
      .ok (greedy_assign resource_spec.cpu_devices ordered
            (List.replicate resource_spec.cpu_devices.length 0) [])

/-- Round-robin assignment of records to devices. -/
def round_robin_assign (devices : List String) :
    List String → Nat → Dict String → Dict String
  | [], _, acc => acc
  | n :: ns, i, acc =>
    round_robin_assign devices ns (i + 1)
      (dinsert n (devices.getD (i % devices.length) ("")) acc)

/-- Modelled from the spec: `christy_load_balancer` (module
`autodist.strategy.auto.ps_load_balancer`, not under `src/`).  The spec only
fixes the behavioural contract (exactly one destination per input record,
drawn from the aggregation-device list; exact tie-breaking is an open
question), realized here as a round-robin over the device list, optionally
after pre-sorting the records descending by byte size. -/
def christy_load_balancer (ps_shards : Dict Nat) (resource_spec : ResourceSpec)
    (helpers : Dict Helper) (sort_by_size : Bool) : Except Err (Dict String) :=
  if resource_spec.cpu_devices.length = 0 then .error .configErr
  else
    match lookup_sizes helpers (ps_shards.map Prod.fst) with
    | .error e => .error e
    | .ok sized =>
      let ordered := if sort_by_size then sort_by_size_desc sized else sized
      .ok (round_robin_assign resource_spec.cpu_devices (ordered.map Prod.fst) 0 [])

/-- Consecutive chunk numbering: the record at position `i` (0-based) gets
group `i / chunk_size`. -/
def chunk_assign (chunk_size : Nat) : List String → Nat → Dict Nat
  | [], _ => []
  | n :: ns, i => (n, i / chunk_size) :: chunk_assign chunk_size ns (i + 1)

/-- Modelled from the spec: `chunk_group_assigner` (module
`autodist.strategy.auto.ar_group_assigner`, not under `src/`): walk the
records in input order, placing consecutive chunk-sized runs into successive
group ids (the last group may be shorter). -/
def chunk_group_assigner (ar_shards : Dict Nat) (chunk_size : Int) : Except Err (Dict Nat) :=
  if chunk_size ≤ 0 then .error .assertErr
  else .ok (chunk_assign chunk_size.toNat (ar_shards.map Prod.fst) 0)

/-- Modulo numbering: the record at position `i` gets group `i % k`. -/
def modulo_assign (k : Nat) : List String → Nat → Dict Nat
  | [], _ => []
  | n :: ns, i => (n, i % k) :: modulo_assign k ns (i + 1)

/-- Modelled from the spec: `christy_group_assigner` (module
`autodist.strategy.auto.ar_group_assigner`, not under `src/`).  Only the
behavioural contract is specified (every record receives exactly one group id
in `[0, num_group)`; the exact balancing algorithm is an open question),
realized here as modulo numbering in input order. -/
def christy_group_assigner (ar_shards : Dict Nat) (helpers : Dict Helper)
    (num_group : Int) : Except Err (Dict Nat) :=
  if num_group ≤ 0 then .error .assertErr
  else .ok (modulo_assign num_group.toNat (ar_shards.map Prod.fst) 0)

/-- Modelled from the spec: `ordered_balanced_group_assigner` (module
`autodist.strategy.auto.ar_group_assigner`, not under `src/`).  Only the
behavioural contract is specified (every record receives exactly one group id
in `[0, num_group)`, using byte-size metadata for balancing), realized here
as modulo numbering after a stable descending sort by byte size. -/
def ordered_balanced_group_assigner (ar_shards : Dict Nat) (helpers : Dict Helper)
    (num_group : Int) : Except Err (Dict Nat) :=
  if num_group ≤ 0 then .error .assertErr
  else
    match lookup_sizes helpers (ar_shards.map Prod.fst) with
    | .error e => .error e
    | .ok sized =>
      .ok (modulo_assign num_group.toNat ((sort_by_size_desc sized).map Prod.fst) 0)

/-- The leaf records of a node, exactly as the classification and assignment
loops of the source walk them: the parts when the partitioner field is set,
the node itself otherwise. -/
def Node.leaves (nd : Node) : List Node :=
  if nd.partitioner = [] then [nd] else nd.part_config

/-- The state threaded through the classification loop of
`sample_group_and_reduction_destinations`: the two pools and the running
index. -/
structure ClassifyState where
  ps_shards : Dict Nat
  ar_shards : Dict Nat
  idx : Nat
  deriving DecidableEq, Repr

/-- Classify one leaf record by its active synchronizer variant (the source
dispatches on `hasattr(synchronizer, "compressor")`); `WhichOneof` returns
`None` on a node with no active variant and the subsequent `getattr(node,
None)` raises `TypeError`. -/
def classify_leaf (l : Node) (st : ClassifyState) : Except Err ClassifyState :=
  match l.synchronizer with
  | none => .error .typeErr
  | some (.AR _) =>
    .ok { st with ar_shards := dinsert l.var_name st.idx st.ar_shards, idx := st.idx + 1 }
  | some (.PS _) =>
    .ok { st with ps_shards := dinsert l.var_name st.idx st.ps_shards, idx := st.idx + 1 }

/-- Classification loop over the leaves of one node. -/
def classify_leaves : List Node → ClassifyState → Except Err ClassifyState
  | [], st => .ok st
  | l :: ls, st =>
    match classify_leaf l st with
    | .error e => .error e
    | .ok st1 => classify_leaves ls st1

/-- Classification loop over the whole node list (lines 466-484 of the
source). -/
def classify_nodes : List Node → ClassifyState → Except Err ClassifyState
  | [], st => .ok st
  | nd :: nds, st =>
    match classify_leaves nd.leaves st with
    | .error e => .error e
    | .ok st1 => classify_nodes nds st1

/-- Generic error-propagating map, mirroring a Python for-loop that can
raise. -/
def mapE (f : α → Except Err β) : List α → Except Err (List β)
  | [] => .ok []
  | x :: xs =>
    match f x with
    | .error e => .error e
    | .ok y =>
      match mapE f xs with
      | .error e => .error e
      | .ok ys => .ok (y :: ys)

/-- Write the sampled reduction destination into one leaf record, as
`assign_ps_reduction_destinations` does: only synchronizers having a
`reduction_destination` field (the PS variant) are touched. -/
def set_reduction_destination (ps_shards : Dict (Nat × String)) (l : Node) :
    Except Err Node :=
  match l.synchronizer with
  | none => .error .typeErr
  | some (.PS s) =>
    match dget l.var_name ps_shards with
    | none => .error .keyErr
    | some p =>
      .ok (.mk l.var_name l.partitioner
        (some (.PS { s with reduction_destination := some p.2 })) l.part_config)
  | some (.AR _) => .ok l

/-- Per-node body of `assign_ps_reduction_destinations`. -/
def assign_node_destination (ps_shards : Dict (Nat × String)) (nd : Node) :
    Except Err Node :=
  if nd.partitioner = [] then set_reduction_destination ps_shards nd
  else
    match mapE (set_reduction_destination ps_shards) nd.part_config with
    | .error e => .error e
    | .ok parts => .ok (.mk nd.var_name nd.partitioner nd.synchronizer parts)

/-- `assign_ps_reduction_destinations`. -/
def assign_ps_reduction_destinations (node_config : List Node)
    (ps_shards : Dict (Nat × String)) : Except Err (List Node) :=
  mapE (assign_node_destination ps_shards) node_config

/-- The loop at lines 524-525 (and 597-598) of the source: replace each pool
entry `(idx,)` by `(idx, value)` where the value is looked up in the sampled
assignment dictionary (KeyError when missing). -/
def attach_values (vals : Dict α) : Dict Nat → Except Err (Dict (Nat × α))
  | [] => .ok []
  | (n, i) :: rest =>
    match dget n vals with
    | none => .error .keyErr
    | some v =>
      match attach_values vals rest with
      | .error e => .error e
      | .ok r => .ok ((n, (i, v)) :: r)

/-- The no-load-balancer branch of `sample_ps_reduction_destinations`: one
independent uniform draw over the reduction devices per record. -/
def sample_destinations_uniform (reduction_device_names : List String) :
    List String → List Nat → Except Err (Dict String × List Nat)
  | [], rng => .ok ([], rng)
  | n :: ns, rng =>
    match uniform_sample_by_choices reduction_device_names rng with
    | .error e => .error e
    | .ok (d, rng1) =>
      match sample_destinations_uniform reduction_device_names ns rng1 with
      | .error e => .error e
      | .ok (dict, rng2) => .ok ((n, d) :: dict, rng2)

/-- The load-balancer dispatch block of `sample_ps_reduction_destinations`
(lines 506-522 of the source): draw one destination per centralized record
via the configured balancer; an unrecognized balancer name raises
ValueError. -/
def sample_ps_destinations (ps_shards : Dict Nat) (resource_spec : ResourceSpec)
    (helpers : Dict Helper) (heuristics : Heuristics) (rng : List Nat) :
    Except Err (Dict String × List Nat) :=
  match heuristics.ps_load_balancer with
  | none =>
    sample_destinations_uniform resource_spec.cpu_devices (ps_shards.map Prod.fst) rng
  | some lb =>
    if lb = ("greedy") then
      (greedy_load_balancer ps_shards resource_spec helpers false).map (fun d => (d, rng))
    else if lb = ("christy") then
      (christy_load_balancer ps_shards resource_spec helpers false).map (fun d => (d, rng))
    else if lb = ("sorted_christy") then
      (christy_load_balancer ps_shards resource_spec helpers true).map (fun d => (d, rng))
    else if lb = ("sorted_greedy") then
      (greedy_load_balancer ps_shards resource_spec helpers true).map (fun d => (d, rng))
    else .error .valueErr

/-- `sample_ps_reduction_destinations`: draw a destination for every
centralized record (through the configured load balancer), pair it with the
pool index, and write the destinations back into the node configs. -/
def sample_ps_reduction_destinations (node_config : List Node) (ps_shards : Dict Nat)
    (resource_spec : ResourceSpec) (helpers : Dict Helper) (heuristics : Heuristics)
    (rng : List Nat) : Except Err (List Node × List Nat) :=
  match sample_ps_destinations ps_shards resource_spec helpers heuristics rng with
  | .error e => .error e
  | .ok (destinations, rng1) =>
    match attach_values destinations ps_shards with
    | .error e => .error e
    | .ok ps_shards2 =>
      match assign_ps_reduction_destinations node_config ps_shards2 with
      | .error e => .error e
      | .ok nodes => .ok (nodes, rng1)

/-- `sample_chunk_size`: uniform over `range(1, num_ar_shards + 1)`. -/
def sample_chunk_size (num_ar_shards : Nat) (rng : List Nat) :
    Except Err (Int × List Nat) :=
  uniform_sample_by_choices (int_range 1 num_ar_shards) rng

/-- `sample_num_ar_groups`: uniform over
`range(max(1, lb), min(pool_size, ub) + 1)`. -/
def sample_num_ar_groups (ar_shards : Dict Nat) (lb ub : Int) (rng : List Nat) :
    Except Err (Int × List Nat) :=
  let min_num_group := max 1 lb
  let max_num_group := min (ar_shards.length : Int) ub
  uniform_sample_by_choices (int_range min_num_group max_num_group) rng

/-- The loop at lines 580-582 of the source: pair pool record names with the
independently drawn group assignments, by position (IndexError when the
assignment list is too short). -/
def zip_assignments : List String → List Nat → Except Err (Dict Nat)
  | [], _ => .ok []
  | _ :: _, [] => .error .indexErr
  | n :: ns, g :: gs =>
    match zip_assignments ns gs with
    | .error e => .error e
    | .ok d => .ok ((n, g) :: d)

/-- Write the sampled group into one leaf record, as `assign_ar_group` does:
only synchronizers having a `compressor` field (the AllReduce variant) are
touched. -/
def set_group (ar_shards : Dict (Nat × Nat)) (l : Node) : Except Err Node :=
  match l.synchronizer with
  | none => .error .typeErr
  | some (.AR a) =>
    match dget l.var_name ar_shards with
    | none => .error .keyErr
    | some p =>
      .ok (.mk l.var_name l.partitioner (some (.AR { a with group := some p.2 }))
        l.part_config)
  | some (.PS _) => .ok l

/-- Per-node body of `assign_ar_group`. -/
def assign_node_group (ar_shards : Dict (Nat × Nat)) (nd : Node) : Except Err Node :=
  if nd.partitioner = [] then set_group ar_shards nd
  else
    match mapE (set_group ar_shards) nd.part_config with
    | .error e => .error e
    | .ok parts => .ok (.mk nd.var_name nd.partitioner nd.synchronizer parts)

/-- `assign_ar_group`. -/
def assign_ar_group (node_config : List Node) (ar_shards : Dict (Nat × Nat)) :
    Except Err (List Node) :=
  mapE (assign_node_group ar_shards) node_config

/-- The first block of `sample_ar_groups` (lines 566-575 of the source):
resolve a chunk size (under the chunk scheme, using the configured override
when present and positive) or a group count (under every other scheme). -/
def resolve_chunk_size_or_num_group (ar_shards : Dict Nat) (heuristics : Heuristics)
    (rng : List Nat) : Except Err (Int × List Nat) :=
  if heuristics.merge_scheme = some ("by_chunk") then
    match heuristics.chunk_size with
    | some c => if 0 < c then .ok (c, rng) else sample_chunk_size ar_shards.length rng
    | none => sample_chunk_size ar_shards.length rng
  else
    sample_num_ar_groups ar_shards heuristics.num_group_bounds.1
      heuristics.num_group_bounds.2 rng

/-- The merge-scheme dispatch block of `sample_ar_groups` (lines 578-595 of
the source): produce one group id per decentralized record; an unrecognized
scheme name raises ValueError. -/
def dispatch_group_assignments (ar_shards : Dict Nat) (helpers : Dict Helper)
    (heuristics : Heuristics) (chunk_size_or_num_group : Int) (rng1 : List Nat) :
    Except Err (Dict Nat × List Nat) :=
  if heuristics.merge_scheme = some ("random") ∨ heuristics.merge_scheme = none then
    match sample_merge_group chunk_size_or_num_group ar_shards.length rng1 with
    | .error e => .error e
    | .ok (tmp, rng2) =>
      match zip_assignments (ar_shards.map Prod.fst) tmp with
      | .error e => .error e
      | .ok ga => .ok (ga, rng2)
  else if heuristics.merge_scheme = some ("by_chunk") then
    (chunk_group_assigner ar_shards chunk_size_or_num_group).map (fun d => (d, rng1))
  else if heuristics.merge_scheme = some ("christy") then
    (christy_group_assigner ar_shards helpers chunk_size_or_num_group).map
      (fun d => (d, rng1))
  else if heuristics.merge_scheme = some ("ordered_balanced") then
    (ordered_balanced_group_assigner ar_shards helpers chunk_size_or_num_group).map
      (fun d => (d, rng1))
  else .error .valueErr

/-- `sample_ar_groups`: resolve a chunk size or group count, assert it
positive, dispatch on the merge scheme and write the groups back into the
node configs. -/
def sample_ar_groups (node_config : List Node) (ar_shards : Dict Nat)
    (helpers : Dict Helper) (heuristics : Heuristics) (rng : List Nat) :
    Except Err (List Node × List Nat) :=
  match resolve_chunk_size_or_num_group ar_shards heuristics rng with
  | .error e => .error e
  | .ok (chunk_size_or_num_group, rng1) =>
    if chunk_size_or_num_group ≤ 0 then .error .assertErr
    else
      match dispatch_group_assignments ar_shards helpers heuristics
          chunk_size_or_num_group rng1 with
      | .error e => .error e
      | .ok (group_assignments, rng2) =>
        match attach_values group_assignments ar_shards with
        | .error e => .error e
        | .ok ar_shards2 =>
          match assign_ar_group node_config ar_shards2 with
          | .error e => .error e
          | .ok nodes => .ok (nodes, rng2)

/-- `sample_group_and_reduction_destinations`: classify every leaf record
into the centralized and decentralized pools, then run placement on the
first and grouping on the second. -/
def sample_group_and_reduction_destinations (node_config : List Node)
    (resource_spec : ResourceSpec) (helpers : Dict Helper) (heuristics : Heuristics)
    (rng : List Nat) : Except Err (List Node × List Nat) :=
  match classify_nodes node_config ⟨[], [], 0⟩ with
  | .error e => .error e
  | .ok st =>
    match (if 0 < st.ps_shards.length then
             sample_ps_reduction_destinations node_config st.ps_shards resource_spec
               helpers heuristics rng
           else .ok (node_config, rng) : Except Err (List Node × List Nat)) with
    | .error e => .error e
    | .ok (nodes1, rng1) =>
      if 0 < st.ar_shards.length then
        sample_ar_groups nodes1 st.ar_shards helpers heuristics rng1
      else .ok (nodes1, rng1)

/-- `get_op_name` (module `autodist.kernel.common.utils`, not under `src/`):
strips the output slot suffix from a tensor name. -/
def get_op_name (name : String) : String :=
  name.takeWhile (fun c => c ≠ ':')

/-- The shard record name formed at line 239 of the source. -/
def part_var_name (op_name : String) (i : Nat) : String :=
  op_name ++ ("/part_") ++ toString i ++ (":0")

/-- The per-shard helper insertions of the loop at lines 237-241. -/
def insert_part_helpers (v : VariableHelper) (pc : PartitionerConfig) :
    Nat → Dict Helper → Dict Helper
  | 0, helpers => helpers
  | i + 1, helpers =>
    dinsert (part_var_name (get_op_name v.name) i) (.partH ⟨i, v, pc⟩)
      (insert_part_helpers v pc i helpers)

/-- The per-shard part nodes created at lines 237-241, paired with the
synchronizers sampled for them. -/
def make_parts (op_name : String) : Nat → List Synchronizer → List Node
  | _, [] => []
  | i, s :: ss =>
    (.mk (part_var_name op_name i) [] (some s) []) :: make_parts op_name (i + 1) ss

/-- The per-variable body of the build loop (lines 216-244 of the source).
The second component of the result is the helpers dictionary as mutated so
far, which survives even when the call raises. -/
def process_var (space : Space) (heuristics : Heuristics) (resource_spec : ResourceSpec)
    (var_helper : VariableHelper) (helpers : Dict Helper) (rng : List Nat) :
    Except Err (Node × List Nat) × Dict Helper :=
  let helpers1 := dinsert var_helper.name (.varH var_helper) helpers
  match sample_if_partition var_helper resource_spec space heuristics rng with
  | .error e => (.error e, helpers1)
  | .ok (maybe_partition, rng1) =>
    if maybe_partition.truthy = false then
      match sample_var_synchronizer var_helper resource_spec space rng1 with
      | .error e => (.error e, helpers1)
      | .ok (sync, rng2) =>
        (.ok (.mk var_helper.name [] (some sync) [], rng2), helpers1)
    else
      match sample_partition_config var_helper resource_spec space heuristics rng1 with
      | .error e => (.error e, helpers1)
      | .ok (pc, rng2) =>
        let helpers2 := insert_part_helpers var_helper pc pc.num_shards helpers1
        match sample_parts_synchronizers pc.num_shards var_helper resource_spec space
            heuristics rng2 with
        | .error e => (.error e, helpers2)
        | .ok (syncs, rng3) =>
          (.ok (.mk var_helper.name pc.partition_list none
            (make_parts (get_op_name var_helper.name) 0 syncs), rng3), helpers2)

/-- The model graph: the trainable variables, already wrapped in their
metadata views (the introspection layer building them is an external
collaborator). -/
structure GraphItem where
  trainable_variables : List VariableHelper
  deriving DecidableEq, Repr

/-- The strategy document: the replica list and one record per variable. -/
structure Strategy where
  replicas : List String
  node_config : List Node

/-- `RandomStrategySampler`: the two configuration structures plus the
transient helpers dictionary. -/
structure RandomStrategySampler where
  space : Space
  heuristics : Heuristics
  helpers : Dict Helper
  deriving DecidableEq, Repr

/-- `RandomStrategySampler._reset`. -/
def RandomStrategySampler.reset (s : RandomStrategySampler) : RandomStrategySampler :=
  { s with helpers := [] }

/-- The per-variable loop of `build` (lines 216-244).  The second component
is the helpers dictionary after the loop, also on error. -/
def build_loop (space : Space) (heuristics : Heuristics) (resource_spec : ResourceSpec) :
    List VariableHelper → Dict Helper → List Nat →
    Except Err (List Node × List Nat) × Dict Helper
  | [], helpers, rng => (.ok ([], rng), helpers)
  | v :: vs, helpers, rng =>
    match process_var space heuristics resource_spec v helpers rng with
    | (.error e, helpers1) => (.error e, helpers1)
    | (.ok (node, rng1), helpers1) =>
      match build_loop space heuristics resource_spec vs helpers1 rng1 with
      | (.error e, helpers2) => (.error e, helpers2)
      | (.ok (nodes, rng2), helpers2) => (.ok (node :: nodes, rng2), helpers2)

/-- `RandomStrategySampler.build`.  Returns the raised error or the built
strategy, together with the sampler object as it is left behind by the call:
on success `_reset` clears the helpers dictionary, while an escaping
exception leaves the mutated dictionary in place. -/
def RandomStrategySampler.build (sampler : RandomStrategySampler) (graph_item : GraphItem)
    (resource_spec : ResourceSpec) (rng : List Nat) :
    Except Err (Strategy × List Nat) × RandomStrategySampler :=
  match build_loop sampler.space sampler.heuristics resource_spec
      graph_item.trainable_variables sampler.helpers rng with
  | (.error e, helpers1) => (.error e, { sampler with helpers := helpers1 })
  | (.ok (node_config, rng1), helpers1) =>
    match sample_group_and_reduction_destinations node_config resource_spec helpers1
        sampler.heuristics rng1 with
    | .error e => (.error e, { sampler with helpers := helpers1 })
    | .ok (node_config2, rng2) =>
      (.ok ({ replicas := resource_spec.gpu_devices, node_config := node_config2 }, rng2),
       sampler.reset)

/-- `MAX_INT32` from `autodist.const`. -/
def MAX_INT32 : Int := 2147483647

/-- `default_space` from the source (lines 657-663). -/
def default_space : Space :=
  { synchronizer_types := [("PS"), ("AR")],
    maybe_partition := [true, false],
    compressor := [("HorovodCompressor"), ("NoneCompressor"), ("HorovodCompressorEF")],
    local_replication := [false],
    partitionable_axis := [] }

/-- `default_heuristics` from the source (lines 666-676); the Python `None`
stored under `maybe_partition_by_size` is falsy, hence `false` here, and
`chunk_size` is present with value `-1`. -/
def default_heuristics : Heuristics :=
  { ps_load_balancer := none,
    merge_scheme := none,
    chunk_size := some (-1),
    num_group_bounds := (-1, MAX_INT32),
    maybe_partition_bounds := (0, (2147483647 : ℚ)),
    maybe_partition_by_size := false,
    num_partition_bounds := (.int 2, .int MAX_INT32),
    enable_single_node_no_partition := false,
    same_synchronizer_for_parts := false }

/-! ### Verification predicates (the invariants claimed for the built
strategy document) -/

/-- A leaf record is complete when exactly one synchronizer variant is
active, a centralized record carries a destination from the device list and
a decentralized record carries a group id below the resolved group count. -/
def leaf_complete (devices : List String) (k : Nat) (l : Node) : Prop :=
  match l.synchronizer with
  | some (.PS s) => ∃ d, s.reduction_destination = some d ∧ d ∈ devices
  | some (.AR a) => ∃ g, a.group = some g ∧ g < k
  | none => False

/-- Every leaf record of a node (the node itself, or its shards) is
complete. -/
def node_complete (devices : List String) (k : Nat) (nd : Node) : Prop :=
  ∀ l ∈ nd.leaves, leaf_complete devices k l

/-- The classification state registers a leaf: an unset oneof is impossible,
and the leaf name is present in the pool of its variant. -/
def pools_include (st : ClassifyState) (l : Node) : Prop :=
  (∃ s, l.synchronizer = some s) ∧
  (∀ p, l.synchronizer = some (.PS p) → (dget l.var_name st.ps_shards).isSome = true) ∧
  (∀ a, l.synchronizer = some (.AR a) → (dget l.var_name st.ar_shards).isSome = true)

/-- Pool membership only grows along the classification loop. -/
def pools_mono (st st1 : ClassifyState) : Prop :=
  (∀ nm, (dget nm st.ps_shards).isSome = true → (dget nm st1.ps_shards).isSome = true) ∧
  (∀ nm, (dget nm st.ar_shards).isSome = true → (dget nm st1.ar_shards).isSome = true)

/-! ### Concrete fixtures used by the witnesses and counterexamples -/

/-- A dense 4x4 variable of 64 bytes. -/
def vh_dense : VariableHelper :=
  { name := ("w:0"), raw_shape := [4, 4], grad_is_dense := true,
    gather_consumer := false, raw_byte_size := 64 }

/-- A sparse embedding variable. -/
def vh_sparse : VariableHelper :=
  { name := ("e:0"), raw_shape := [8, 4], grad_is_dense := false,
    gather_consumer := true, raw_byte_size := 128 }

/-- A dense variable with a 2-element axis, for over-sharded reads. -/
def vh_c6 : VariableHelper :=
  { name := ("u:0"), raw_shape := [2], grad_is_dense := true,
    gather_consumer := false, raw_byte_size := 8 }

/-- One GPU, two aggregation devices. -/
def rs_1g2c : ResourceSpec := { gpu_devices := [("g0")], cpu_devices := [("c0"), ("c1")] }

/-- Two GPUs, one aggregation device. -/
def rs_2g1c : ResourceSpec := { gpu_devices := [("g0"), ("g1")], cpu_devices := [("c0")] }

/-- One GPU, one aggregation device. -/
def rs_1g1c : ResourceSpec := { gpu_devices := [("g0")], cpu_devices := [("c0")] }

/-- A space whose `maybe_partition` is the singleton `[false]`. -/
def space_single_false : Space :=
  { default_space with maybe_partition := [false] }

/-- A space allowing both sharding outcomes and only the PS synchronizer. -/
def space_ps_only : Space :=
  { synchronizer_types := [("PS")], maybe_partition := [false, true],
    compressor := [("NoneCompressor")], local_replication := [false],
    partitionable_axis := [] }

/-- Heuristics under which a single-aggregation-device cluster skips
sharding. -/
def heur_single_node : Heuristics :=
  { default_heuristics with enable_single_node_no_partition := true }

/-- A sampler that completes successfully on `rs_1g1c` (the single-node
early return skips the faulty attribute access). -/
def sampler_ok : RandomStrategySampler :=
  { space := space_ps_only, heuristics := heur_single_node, helpers := [] }

/-- A graph with the single dense variable. -/
def graph_dense : GraphItem := { trainable_variables := [vh_dense] }

/-- The strategy document produced by `sampler_ok` on `graph_dense`,
`rs_1g1c` and the random stream `[0, 0]`. -/
def strat_ok : Strategy :=
  { replicas := [("g0")],
    node_config := [.mk (("w:0")) []
      (some (.PS { sync := true, staleness := 0, local_replication := false,
                   reduction_destination := some (("c0")) })) []] }

/-- A sampler that fails on `rs_1g2c` (the faulty attribute access is
reached), leaving its helpers dictionary populated. -/
def sampler_fail : RandomStrategySampler :=
  { space := space_ps_only, heuristics := default_heuristics, helpers := [] }

/-- A two-record decentralized pool. -/
def arsh_ex : Dict Nat := [(("a:0"), 0), (("b:0"), 1)]

/-- Heuristics naming the "random" merge scheme explicitly, with a chunk
size differing from the default one (the chunk size must be ignored). -/
def heur_random : Heuristics :=
  { default_heuristics with merge_scheme := some ("random"), chunk_size := some 5 }

/-- Two decentralized leaf records matching `arsh_ex`. -/
def nodes_ar : List Node :=
  [.mk (("a:0")) [] (some (.AR { spec := ("AUTO"),
                                 compressor := ("NoneCompressor"),
                                 group := none })) [],
   .mk (("b:0")) [] (some (.AR { spec := ("AUTO"),
                                 compressor := ("NoneCompressor"),
                                 group := none })) []]

/-! ## Generic lemmas about the embedding building blocks -/

theorem getD_mem_of_lt (l : List α) (i : Nat) (d : α) (h : i < l.length) :
    l.getD i d ∈ l := by
  rw [List.getD_eq_getElem l d h]
  exact List.getElem_mem h

theorem uniform_mem {choices : List α} {rng : List Nat} {x : α} {rng1 : List Nat}
    (h : uniform_sample_by_choices choices rng = .ok (x, rng1)) : x ∈ choices := by
  match choices with
  | [] => simp [uniform_sample_by_choices] at h
  | c :: cs =>
    simp only [uniform_sample_by_choices] at h
    obtain ⟨h1, -⟩ := Prod.mk.injEq .. ▸ (Except.ok.injEq .. ▸ h)
    subst h1
    exact getD_mem_of_lt _ _ _ (Nat.mod_lt _ (Nat.succ_pos _))

theorem int_range_mem {a b x : Int} (h : x ∈ int_range a b) : a ≤ x ∧ x ≤ b := by
  unfold int_range at h
  rw [List.mem_map] at h
  obtain ⟨i, hi, rfl⟩ := h
  rw [List.mem_range] at hi
  omega

/-! ## Shard metadata arithmetic (claims C5 and C6) -/

theorem part_shape_eq (v : VariableHelper) (pc : PartitionerConfig) (i : Nat)
    (hax : pc.axis < v.raw_shape.length) (hn : pc.num_shards ≠ 0) :
    (PartHelper.mk i v pc).shape =
      .ok (v.raw_shape.set pc.axis
        (shard_extent (v.raw_shape.get ⟨pc.axis, hax⟩) pc.num_shards i)) := by
  unfold PartHelper.shape
  dsimp only
  rw [dif_pos hax, if_neg hn]
  unfold shard_extent
  rfl

theorem sum_ite_lt (m n : Nat) :
    (∑ i ∈ Finset.range n, if i < m then (1 : Nat) else 0) = min m n := by
  induction n with
  | zero => simp
  | succ k ih =>
    rw [Finset.sum_range_succ, ih]
    rcases Nat.lt_or_ge k m with h | h
    · rw [if_pos h]
      omega
    · rw [if_neg (by omega)]
      omega

theorem shard_extent_sum (E n : Nat) (hn : 0 < n) :
    ∑ i ∈ Finset.range n, shard_extent E n i = E := by
  have h1 : ∀ i ∈ Finset.range n,
      shard_extent E n i = E / n + (if i < E % n then 1 else 0) := by
    intro i _
    unfold shard_extent
    split <;> simp
  rw [Finset.sum_congr rfl h1, Finset.sum_add_distrib, Finset.sum_const, Finset.card_range,
    smul_eq_mul, sum_ite_lt, Nat.min_eq_left (Nat.le_of_lt (Nat.mod_lt E hn))]
  exact Nat.div_add_mod E n

theorem part_byte_size_eq (v : VariableHelper) (pc : PartitionerConfig) (i : Nat)
    (hax : pc.axis < v.raw_shape.length) (hn : pc.num_shards ≠ 0)
    (hE : v.raw_shape.get ⟨pc.axis, hax⟩ ≠ 0) :
    (PartHelper.mk i v pc).byte_size =
      .ok (v.raw_byte_size *
        ((shard_extent (v.raw_shape.get ⟨pc.axis, hax⟩) pc.num_shards i : Nat) : ℚ) /
        ((v.raw_shape.get ⟨pc.axis, hax⟩ : Nat) : ℚ)) := by
  unfold PartHelper.byte_size
  rw [part_shape_eq v pc i hax hn]
  have hset : (v.raw_shape.set pc.axis
      (shard_extent (v.raw_shape.get ⟨pc.axis, hax⟩) pc.num_shards i)).getD pc.axis 0 =
      shard_extent (v.raw_shape.get ⟨pc.axis, hax⟩) pc.num_shards i := by
    rw [List.getD_eq_getElem _ _ (by simpa using hax)]
    exact List.getElem_set_self (by simpa using hax)
  have hpar : v.raw_shape.getD pc.axis 0 = v.raw_shape.get ⟨pc.axis, hax⟩ := by
    rw [List.getD_eq_getElem _ _ hax]
    rfl
  simp only [hset, hpar, VariableHelper.byte_size, if_neg hE]

/-- C5: for a parameter sharded into `num_shards` pieces along a partition
axis of extent `E`, with `0 < num_shards ≤ E`: shard `i` has extent
`E / num_shards`, plus one for the first `E % num_shards` shards; shard
shapes agree with the parent on every other axis; the shard extents along the
partition axis sum to `E`; and the shard byte sizes (parent byte size scaled
by fractional extent) sum to the parent byte size. -/
theorem c5_shard_shape_and_byte_size (v : VariableHelper) (pc : PartitionerConfig)
    (hax : pc.axis < v.raw_shape.length) (hn : 0 < pc.num_shards)
    (hle : pc.num_shards ≤ v.raw_shape.get ⟨pc.axis, hax⟩) :
    (∀ i, (PartHelper.mk i v pc).shape =
      .ok (v.raw_shape.set pc.axis
        (shard_extent (v.raw_shape.get ⟨pc.axis, hax⟩) pc.num_shards i))) ∧
    (∀ i j, j ≠ pc.axis →
      (v.raw_shape.set pc.axis
        (shard_extent (v.raw_shape.get ⟨pc.axis, hax⟩) pc.num_shards i)).getD j 0 =
        v.raw_shape.getD j 0) ∧
    (∑ i ∈ Finset.range pc.num_shards,
      shard_extent (v.raw_shape.get ⟨pc.axis, hax⟩) pc.num_shards i =
        v.raw_shape.get ⟨pc.axis, hax⟩) ∧
    (∀ i, (PartHelper.mk i v pc).byte_size =
      .ok (v.raw_byte_size *
        ((shard_extent (v.raw_shape.get ⟨pc.axis, hax⟩) pc.num_shards i : Nat) : ℚ) /
        ((v.raw_shape.get ⟨pc.axis, hax⟩ : Nat) : ℚ))) ∧
    (∑ i ∈ Finset.range pc.num_shards,
      v.raw_byte_size *
        ((shard_extent (v.raw_shape.get ⟨pc.axis, hax⟩) pc.num_shards i : Nat) : ℚ) /
        ((v.raw_shape.get ⟨pc.axis, hax⟩ : Nat) : ℚ)) = v.raw_byte_size := by
  have hn0 : pc.num_shards ≠ 0 := Nat.pos_iff_ne_zero.mp hn
  have hE0 : v.raw_shape.get ⟨pc.axis, hax⟩ ≠ 0 := by omega
  refine ⟨fun i => part_shape_eq v pc i hax hn0, ?_, shard_extent_sum _ _ hn, fun i =>
    part_byte_size_eq v pc i hax hn0 hE0, ?_⟩
  · intro i j hj
    rcases Nat.lt_or_ge j v.raw_shape.length with hjl | hjl
    · rw [List.getD_eq_getElem _ _ (by simpa using hjl), List.getD_eq_getElem _ _ hjl]
      exact List.getElem_set_ne (fun hc => hj hc.symm) _
    · rw [List.getD_eq_default _ _ (by simpa using hjl), List.getD_eq_default _ _ hjl]
  · have hcast : ((v.raw_shape.get ⟨pc.axis, hax⟩ : Nat) : ℚ) ≠ 0 := by
      exact_mod_cast hE0
    have hsum : (∑ i ∈ Finset.range pc.num_shards,
        ((shard_extent (v.raw_shape.get ⟨pc.axis, hax⟩) pc.num_shards i : Nat) : ℚ)) =
        ((v.raw_shape.get ⟨pc.axis, hax⟩ : Nat) : ℚ) := by
      rw [← Nat.cast_sum]
      exact_mod_cast congrArg (Nat.cast : Nat → ℚ) (shard_extent_sum _ _ hn)
    calc (∑ i ∈ Finset.range pc.num_shards,
            v.raw_byte_size *
              ((shard_extent (v.raw_shape.get ⟨pc.axis, hax⟩) pc.num_shards i : Nat) : ℚ) /
              ((v.raw_shape.get ⟨pc.axis, hax⟩ : Nat) : ℚ))
        = (∑ i ∈ Finset.range pc.num_shards,
            v.raw_byte_size *
              ((shard_extent (v.raw_shape.get ⟨pc.axis, hax⟩) pc.num_shards i : Nat) : ℚ)) /
            ((v.raw_shape.get ⟨pc.axis, hax⟩ : Nat) : ℚ) := by
          rw [Finset.sum_div]
      _ = v.raw_byte_size * ((v.raw_shape.get ⟨pc.axis, hax⟩ : Nat) : ℚ) /
            ((v.raw_shape.get ⟨pc.axis, hax⟩ : Nat) : ℚ) := by
          rw [← Finset.mul_sum, hsum]
      _ = v.raw_byte_size := by
          rw [mul_div_assoc, div_self hcast, mul_one]

/-- Witness for C5 at a concrete input: a 7-element axis split into 3 shards
of extents 3, 2, 2 and byte sizes 6, 4, 4 summing to 14. -/
theorem c5_witness :
    (0 : Nat) < 3 ∧
    (∑ i ∈ Finset.range 3, shard_extent 7 3 i) = 7 ∧
    (PartHelper.mk 0 ⟨("w"), [7], true, false, 14⟩ ⟨0, 3, [3]⟩).shape = .ok [3] ∧
    (PartHelper.mk 0 ⟨("w"), [7], true, false, 14⟩ ⟨0, 3, [3]⟩).byte_size = .ok 6 := by
  have h := c5_shard_shape_and_byte_size ⟨("w"), [7], true, false, 14⟩ ⟨0, 3, [3]⟩
    (by decide) (by decide) (by decide)
  refine ⟨by decide, h.2.2.1, ?_, ?_⟩
  · rw [h.1 0]
    rfl
  · rw [h.2.2.2.1 0]
    norm_num [shard_extent]

/-! ## Claim C6: shard metadata for an over-sharded axis -/

/-- C6 counterexample: a parameter of shape `[2]` read with shard count 3.
The claim says the read fails with a configuration error; `PartHelper.shape`
instead returns the shape `[1]` (shard 0) without raising anything. -/
theorem c6_counterexample :
    (PartHelper.mk 0 vh_c6 ⟨0, 3, [3]⟩).shape = .ok [1] ∧
    ∀ e, (PartHelper.mk 0 vh_c6 ⟨0, 3, [3]⟩).shape ≠ .error e := by
  refine ⟨rfl, fun e h => ?_⟩
  rw [show (PartHelper.mk 0 vh_c6 ⟨0, 3, [3]⟩).shape = .ok [1] from rfl] at h
  exact Except.noConfusion h

/-- C6 (amended): reading shard metadata with a shard count larger than the
axis extent does not fail; it returns a shape in which the first `extent`
shards have extent 1 and the rest extent 0, the shard extents still summing
to the parent extent. -/
theorem c6_overcount_total (v : VariableHelper) (pc : PartitionerConfig)
    (hax : pc.axis < v.raw_shape.length) (hn : 0 < pc.num_shards)
    (hlt : v.raw_shape.get ⟨pc.axis, hax⟩ < pc.num_shards) (i : Nat) :
    (PartHelper.mk i v pc).shape =
      .ok (v.raw_shape.set pc.axis
        (if i < v.raw_shape.get ⟨pc.axis, hax⟩ then 1 else 0)) ∧
    ∑ j ∈ Finset.range pc.num_shards,
      shard_extent (v.raw_shape.get ⟨pc.axis, hax⟩) pc.num_shards j =
      v.raw_shape.get ⟨pc.axis, hax⟩ := by
  have hn0 : pc.num_shards ≠ 0 := by omega
  refine ⟨?_, shard_extent_sum _ _ hn⟩
  have hval : shard_extent (v.raw_shape.get ⟨pc.axis, hax⟩) pc.num_shards i
      = if i < v.raw_shape.get ⟨pc.axis, hax⟩ then 1 else 0 := by
    unfold shard_extent
    rw [Nat.mod_eq_of_lt hlt, Nat.div_eq_of_lt hlt]
  rw [part_shape_eq v pc i hax hn0, hval]

/-- Witness for the amended C6 on the concrete over-sharded input. -/
theorem c6_witness :
    (PartHelper.mk 1 vh_c6 ⟨0, 3, [3]⟩).shape = .ok [1] ∧
    (∑ j ∈ Finset.range 3, shard_extent 2 3 j) = 2 := by
  have h := c6_overcount_total vh_c6 ⟨0, 3, [3]⟩ (by decide) (by decide) (by decide) 1
  exact ⟨h.1, h.2⟩

/-! ## Claim C3: the singleton `maybe_partition` early return -/

/-- C3: with `space.maybe_partition = [false]` the stage returns the list
itself (line 273 returns `space["maybe_partition"]`, not its element), and
that list is truthy in the boolean context of `build`, so the variable is
sent down the partition branch instead of never being sharded. -/
theorem c3_singleton_returns_truthy_list :
    sample_if_partition vh_dense rs_1g2c space_single_false default_heuristics [] =
      .ok (.list [false], []) ∧
    PartitionDecision.truthy (.list [false]) = true :=
  ⟨rfl, rfl⟩

/-! ## Claim C4: the byte-size bound comparison is unreachable -/

/-- C4: every invocation of `sample_if_partition` that passes the
singleton-space and single-aggregation-device early returns fails with
`AttributeError` before any byte-size comparison, because line 278 reads
`var_helper.partitionable_axis` while the property is defined as
`partitionable_axes`. -/
theorem c4_byte_size_bounds_unreachable (var_helper : VariableHelper)
    (resource_spec : ResourceSpec) (space : Space) (heuristics : Heuristics)
    (rng : List Nat) (h1 : space.maybe_partition.length ≠ 1)
    (h2 : ¬(heuristics.enable_single_node_no_partition = true ∧
      resource_spec.cpu_devices.length ≤ 1)) :
    sample_if_partition var_helper resource_spec space heuristics rng =
      .error .attrErr := by
  unfold sample_if_partition
  rw [if_neg h1, if_neg h2]
  rfl

/-- Witness for C4: a dense variable whose byte size sits exactly at the
lower bound, in a space allowing both outcomes, still hits the attribute
error. -/
theorem c4_witness :
    sample_if_partition vh_dense rs_1g2c space_ps_only default_heuristics [] =
      .error .attrErr :=
  c4_byte_size_bounds_unreachable vh_dense rs_1g2c space_ps_only default_heuristics []
    (by decide) (by decide)

/-! ## Claim C7: the partition-config stage -/

/-- C7: `sample_partition_config` fails with `AttributeError` on every
invocation: its first statement (the assert at line 381) already reads the
nonexistent `var_helper.partitionable_axis` attribute, so neither the
shard-count bounds nor the partition descriptor are ever computed.  (Had the
attribute resolved, the `"num_nodes"` sentinel in the lower bound would
additionally evaluate `max(2, "num_nodes")`, a `TypeError`, as embedded in
the definition.) -/
theorem c7_partition_config_attr_error (var_helper : VariableHelper)
    (resource_spec : ResourceSpec) (space : Space) (heuristics : Heuristics)
    (rng : List Nat) :
    sample_partition_config var_helper resource_spec space heuristics rng =
      .error .attrErr := rfl

/-! ## Claim C8: the local-replication decision -/

/-- C8: when the accelerator count is at most the aggregation-device count
the flag is false for every option set, with no randomness consumed;
otherwise the flag is drawn from the configured option set. -/
theorem c8_local_replication (local_replication_space : List Bool)
    (resource_spec : ResourceSpec) (rng : List Nat) :
    (resource_spec.num_gpus ≤ resource_spec.num_cpus →
      sample_if_local_replication local_replication_space resource_spec rng =
        .ok (false, rng)) ∧
    (resource_spec.num_cpus < resource_spec.num_gpus →
      ∀ b rng1, sample_if_local_replication local_replication_space resource_spec rng =
        .ok (b, rng1) → b ∈ local_replication_space) := by
  constructor
  · intro h
    unfold sample_if_local_replication
    rw [if_pos h]
  · intro h b rng1 hok
    unfold sample_if_local_replication at hok
    rw [if_neg (by omega)] at hok
    exact uniform_mem hok

/-- Witness for C8: a 1:1 cluster forces false even though the option set
only contains true; a 2:1 cluster draws from the option set. -/
theorem c8_witness :
    sample_if_local_replication [true] rs_1g1c [] = .ok (false, []) ∧
    (true : Bool) ∈ [true] :=
  ⟨(c8_local_replication [true] rs_1g1c []).1 (by decide),
   (c8_local_replication [true] rs_2g1c [0]).2 (by decide) true [] rfl⟩

/-! ## Claim C2: sparse parameters always get the centralized kind -/

theorem sample_sync_of_type_ps {resource_spec : ResourceSpec} {space : Space}
    {rng : List Nat} {s : Synchronizer} {rng1 : List Nat}
    (h : sample_synchronizer_of_type ("PS") resource_spec space rng = .ok (s, rng1)) :
    ∃ p, s = .PS p := by
  unfold sample_synchronizer_of_type at h
  rw [if_pos rfl] at h
  cases hlr : sample_if_local_replication space.local_replication resource_spec rng with
  | error e => rw [hlr] at h; exact Except.noConfusion h
  | ok p =>
    rw [hlr] at h
    obtain ⟨h1, -⟩ := Prod.mk.injEq .. ▸ (Except.ok.injEq .. ▸ h)
    exact ⟨_, h1.symm⟩

theorem sample_syncs_replicate_ps (resource_spec : ResourceSpec) (space : Space) :
    ∀ (n : Nat) (rng : List Nat) (syncs : List Synchronizer) (rng1 : List Nat),
    sample_synchronizers_of_types resource_spec space (List.replicate n ("PS")) rng =
      .ok (syncs, rng1) → ∀ s ∈ syncs, ∃ p, s = .PS p := by
  intro n
  induction n with
  | zero =>
    intro rng syncs rng1 h s hs
    simp only [List.replicate, sample_synchronizers_of_types] at h
    obtain ⟨h1, -⟩ := Prod.mk.injEq .. ▸ (Except.ok.injEq .. ▸ h)
    subst h1
    cases hs
  | succ m ih =>
    intro rng syncs rng1 h s hs
    rw [List.replicate_succ] at h
    unfold sample_synchronizers_of_types at h
    split at h
    next e heq => exact Except.noConfusion h
    next s1 rngA heq =>
      split at h
      next e2 heq2 => exact Except.noConfusion h
      next ss rngB heq2 =>
        obtain ⟨h3, -⟩ := Prod.mk.injEq .. ▸ (Except.ok.injEq .. ▸ h)
        subst h3
        rcases hs with _ | hs2
        · exact sample_sync_of_type_ps heq
        · exact ih rngA ss rngB heq2 s (by assumption)

/-- C2: a SPARSE parameter always receives the centralized (PS) synchronizer
kind, both as a whole parameter and for every shard of a sharded parameter,
whatever the synchronizer-kind set of the space and whatever the
`same_synchronizer_for_parts` heuristic says. -/
theorem c2_sparse_always_centralized (var_helper : VariableHelper)
    (resource_spec : ResourceSpec) (space : Space) (heuristics : Heuristics)
    (rng : List Nat) (hs : var_helper.var_type = VarType.SPARSE) :
    (∀ sync rng1,
      sample_var_synchronizer var_helper resource_spec space rng = .ok (sync, rng1) →
      ∃ p, sync = .PS p) ∧
    (∀ num_parts syncs rng1,
      sample_parts_synchronizers num_parts var_helper resource_spec space heuristics rng =
        .ok (syncs, rng1) → ∀ s ∈ syncs, ∃ p, s = .PS p) := by
  constructor
  · intro sync rng1 h
    unfold sample_var_synchronizer at h
    rw [if_pos hs] at h
    exact sample_sync_of_type_ps h
  · intro num_parts syncs rng1 h s hsm
    unfold sample_parts_synchronizers at h
    rw [if_pos hs] at h
    exact sample_syncs_replicate_ps resource_spec space num_parts rng syncs rng1 h s hsm

/-- Witness for C2: the sparse embedding variable, in the default space
(which offers both PS and AR), still gets the PS variant. -/
theorem c2_witness :
    sample_var_synchronizer vh_sparse rs_1g2c default_space [] =
      .ok (.PS { sync := true, staleness := 0, local_replication := false,
                 reduction_destination := none }, []) ∧
    ∃ p, (Synchronizer.PS { sync := true, staleness := 0, local_replication := false,
                            reduction_destination := none }) = .PS p :=
  ⟨rfl, (c2_sparse_always_centralized vh_sparse rs_1g2c default_space default_heuristics []
    rfl).1 _ [] rfl⟩

/-! ## Claim C10: no merge scheme behaves exactly like the random scheme -/

/-- C10: with `merge_scheme` unset the decentralized pool is grouped exactly
as under the "random" scheme: the two runs are equal for every input and
random stream (whatever either chunk size says), and the drawn group count
lies in `[max(1, lb), min(pool size, ub)]`. -/
theorem c10_none_scheme_equals_random (node_config : List Node) (ar_shards : Dict Nat)
    (helpers : Dict Helper) (h1 h2 : Heuristics) (rng : List Nat)
    (hm1 : h1.merge_scheme = none) (hm2 : h2.merge_scheme = some ("random"))
    (hb : h1.num_group_bounds = h2.num_group_bounds) :
    sample_ar_groups node_config ar_shards helpers h1 rng =
      sample_ar_groups node_config ar_shards helpers h2 rng ∧
    (∀ lb ub k rng1, sample_num_ar_groups ar_shards lb ub rng = .ok (k, rng1) →
      max 1 lb ≤ k ∧ k ≤ min (ar_shards.length : Int) ub) := by
  constructor
  · unfold sample_ar_groups resolve_chunk_size_or_num_group dispatch_group_assignments
    rw [hm1, hm2, hb]
    simp
  · intro lb ub k rng1 hok
    unfold sample_num_ar_groups at hok
    exact int_range_mem (uniform_mem hok)

/-- Witness for C10 on the two-record pool with the random stream
`[0, 1, 1]`: the unset scheme and the explicit random scheme produce the same
result even though their chunk sizes differ, and the drawn group count 1 is
within bounds. -/
theorem c10_witness :
    sample_ar_groups nodes_ar arsh_ex [] default_heuristics [0, 1, 1] =
      sample_ar_groups nodes_ar arsh_ex [] heur_random [0, 1, 1] ∧
    (max 1 (-1) ≤ (1 : Int) ∧ (1 : Int) ≤ min ((arsh_ex.length : Nat) : Int) MAX_INT32) :=
  ⟨(c10_none_scheme_equals_random nodes_ar arsh_ex [] default_heuristics heur_random
      [0, 1, 1] rfl rfl rfl).1,
   (c10_none_scheme_equals_random nodes_ar arsh_ex [] default_heuristics heur_random
      [0, 1, 1] rfl rfl rfl).2 (-1) MAX_INT32 1 [1, 1] rfl⟩

/-! ## Claim C9: the transient helpers dictionary -/

/-- C9 counterexample: a failing invocation of `build` (the dense variable
reaches the faulty attribute access) leaves the per-call helpers dictionary
populated on the sampler object, because `_reset` only runs on the success
path; so the mapping is not discarded at the end of every call. -/
theorem c9_counterexample :
    (sampler_fail.build graph_dense rs_1g2c []).1 = .error .attrErr ∧
    (sampler_fail.build graph_dense rs_1g2c []).2.helpers =
      [(("w:0"), .varH vh_dense)] ∧
    [(("w:0"), Helper.varH vh_dense)] ≠ ([] : Dict Helper) :=
  ⟨rfl, rfl, fun h => List.noConfusion h⟩

/-- C9 (amended): on every invocation of `build` that completes successfully
the transient helpers dictionary is discarded (reset to empty) before the
strategy is returned; a failing invocation instead leaves the partially
populated mapping on the sampler. -/
theorem c9_reset_on_success (sampler : RandomStrategySampler) (graph_item : GraphItem)
    (resource_spec : ResourceSpec) (rng : List Nat) (strat : Strategy)
    (rng1 : List Nat) (sampler1 : RandomStrategySampler)
    (hok : sampler.build graph_item resource_spec rng = (.ok (strat, rng1), sampler1)) :
    sampler1.helpers = [] := by
  unfold RandomStrategySampler.build at hok
  split at hok
  next e helpers1 heq =>
    exact absurd (congrArg Prod.fst hok) (by simp)
  next node_config rngA helpers1 heq =>
    split at hok
    next e heq2 =>
      exact absurd (congrArg Prod.fst hok) (by simp)
    next nodes2 rngB heq2 =>
      have h2 := congrArg Prod.snd hok
      simp only at h2
      rw [← h2]
      rfl

/-- Witness for C9: the successful concrete build leaves empty helpers. -/
theorem c9_witness : sampler_ok.helpers = ([] : Dict Helper) :=
  c9_reset_on_success sampler_ok graph_dense rs_1g1c [0, 0] strat_ok [] sampler_ok rfl

/-! ## Dictionary and traversal lemmas (towards claim C1) -/

theorem dget_dinsert_self (key : String) (v : α) (d : Dict α) :
    dget key (dinsert key v d) = some v := by
  induction d with
  | nil => simp [dinsert, dget]
  | cons p rest ih =>
    obtain ⟨k1, w⟩ := p
    by_cases h : k1 = key
    · subst h
      simp [dinsert, dget]
    · simp [dinsert, dget, h, ih]

theorem dget_isSome_dinsert (key key2 : String) (v : α) (d : Dict α)
    (h : (dget key d).isSome = true) : (dget key (dinsert key2 v d)).isSome = true := by
  by_cases hk : key = key2
  · subst hk
    rw [dget_dinsert_self]
    rfl
  · induction d with
    | nil => simp [dget] at h
    | cons p rest ih =>
      obtain ⟨k1, w⟩ := p
      by_cases h1 : k1 = key2
      · subst h1
        simp only [dinsert, if_pos rfl]
        simp only [dget, if_neg (Ne.symm hk)] at h ⊢
        exact h
      · simp only [dinsert, if_neg h1]
        by_cases h2 : k1 = key
        · simp [dget, h2]
        · simp only [dget, if_neg h2] at h ⊢
          exact ih h

theorem mem_dinsert {p : String × α} {key : String} {v : α} {d : Dict α}
    (h : p ∈ dinsert key v d) : p = (key, v) ∨ p ∈ d := by
  induction d with
  | nil => simpa [dinsert] using h
  | cons q rest ih =>
    obtain ⟨k1, w⟩ := q
    by_cases h1 : k1 = key
    · subst h1
      have hd : dinsert k1 v ((k1, w) :: rest) = (k1, v) :: rest := by simp [dinsert]
      rw [hd, List.mem_cons] at h
      rcases h with h2 | h2
      · exact Or.inl h2
      · exact Or.inr (List.mem_cons_of_mem _ h2)
    · have hd : dinsert key v ((k1, w) :: rest) = (k1, w) :: dinsert key v rest := by
        simp [dinsert, h1]
      rw [hd, List.mem_cons] at h
      rcases h with h2 | h2
      · exact Or.inr (h2 ▸ List.mem_cons_self ..)
      · rcases ih h2 with h3 | h3
        · exact Or.inl h3
        · exact Or.inr (List.mem_cons_of_mem _ h3)

theorem dget_mem {key : String} {d : Dict α} {v : α}
    (h : dget key d = some v) : (key, v) ∈ d := by
  induction d with
  | nil => simp [dget] at h
  | cons p rest ih =>
    obtain ⟨k1, w⟩ := p
    by_cases h1 : k1 = key
    · subst h1
      simp only [dget, if_pos rfl] at h
      injection h with h2
      subst h2
      exact List.mem_cons_self ..
    · simp only [dget, if_neg h1] at h
      exact List.mem_cons_of_mem _ (ih h)

theorem mapE_mem_right {f : α → Except Err β} {xs : List α} {ys : List β}
    (h : mapE f xs = .ok ys) {y : β} (hy : y ∈ ys) : ∃ x ∈ xs, f x = .ok y := by
  induction xs generalizing ys with
  | nil =>
    simp only [mapE] at h
    injection h with h1
    subst h1
    cases hy
  | cons x xs ih =>
    simp only [mapE] at h
    split at h
    · exact Except.noConfusion h
    next y1 heq1 =>
      split at h
      · exact Except.noConfusion h
      next ys1 heq2 =>
        injection h with h1
        subst h1
        rcases hy with _ | hy2
        · exact ⟨x, List.mem_cons_self .., heq1⟩
        · obtain ⟨x2, hx2, hfx2⟩ := ih heq2 (by assumption)
          exact ⟨x2, List.mem_cons_of_mem _ hx2, hfx2⟩

/-! ## Classification lemmas -/

theorem pools_mono_refl (st : ClassifyState) : pools_mono st st :=
  ⟨fun _ h => h, fun _ h => h⟩

theorem pools_mono_trans {st1 st2 st3 : ClassifyState}
    (h1 : pools_mono st1 st2) (h2 : pools_mono st2 st3) : pools_mono st1 st3 :=
  ⟨fun nm h => h2.1 nm (h1.1 nm h), fun nm h => h2.2 nm (h1.2 nm h)⟩

theorem pools_include_mono {st st1 : ClassifyState} {l : Node}
    (h : pools_include st l) (hm : pools_mono st st1) : pools_include st1 l :=
  ⟨h.1, fun p hp => hm.1 _ (h.2.1 p hp), fun a ha => hm.2 _ (h.2.2 a ha)⟩

theorem classify_leaf_post {l : Node} {st st1 : ClassifyState}
    (h : classify_leaf l st = .ok st1) : pools_include st1 l ∧ pools_mono st st1 := by
  unfold classify_leaf at h
  split at h
  · exact Except.noConfusion h
  next a heq =>
    injection h with h1
    subst h1
    refine ⟨⟨⟨_, heq⟩, ?_, ?_⟩, fun nm hm => hm, fun nm hm => dget_isSome_dinsert _ _ _ _ hm⟩
    · intro p hp
      rw [heq] at hp
      simp at hp
    · intro a2 _
      rw [dget_dinsert_self]
      rfl
  next p heq =>
    injection h with h1
    subst h1
    refine ⟨⟨⟨_, heq⟩, ?_, ?_⟩, fun nm hm => dget_isSome_dinsert _ _ _ _ hm, fun nm hm => hm⟩
    · intro p2 _
      rw [dget_dinsert_self]
      rfl
    · intro a ha
      rw [heq] at ha
      simp at ha

theorem classify_leaves_post {ls : List Node} :
    ∀ {st st1 : ClassifyState}, classify_leaves ls st = .ok st1 →
    (∀ l ∈ ls, pools_include st1 l) ∧ pools_mono st st1 := by
  induction ls with
  | nil =>
    intro st st1 h
    simp only [classify_leaves] at h
    injection h with h1
    subst h1
    exact ⟨fun l hl => absurd hl (List.not_mem_nil l), pools_mono_refl st⟩
  | cons l ls ih =>
    intro st st1 h
    simp only [classify_leaves] at h
    split at h
    · exact Except.noConfusion h
    next stm heq =>
      obtain ⟨hincl, hmono1⟩ := classify_leaf_post heq
      obtain ⟨hrest, hmono2⟩ := ih h
      refine ⟨?_, pools_mono_trans hmono1 hmono2⟩
      intro l2 hl2
      rcases hl2 with _ | hl3
      · exact pools_include_mono hincl hmono2
      · exact hrest l2 (by assumption)

theorem classify_nodes_post {nds : List Node} :
    ∀ {st st1 : ClassifyState}, classify_nodes nds st = .ok st1 →
    (∀ nd ∈ nds, ∀ l ∈ nd.leaves, pools_include st1 l) ∧ pools_mono st st1 := by
  induction nds with
  | nil =>
    intro st st1 h
    simp only [classify_nodes] at h
    injection h with h1
    subst h1
    exact ⟨fun nd hnd => absurd hnd (List.not_mem_nil nd), pools_mono_refl st⟩
  | cons nd nds ih =>
    intro st st1 h
    simp only [classify_nodes] at h
    split at h
    · exact Except.noConfusion h
    next stm heq =>
      obtain ⟨hincl, hmono1⟩ := classify_leaves_post heq
      obtain ⟨hrest, hmono2⟩ := ih h
      refine ⟨?_, pools_mono_trans hmono1 hmono2⟩
      intro nd2 hnd2 l hl
      rcases hnd2 with _ | hnd3
      · exact pools_include_mono (hincl l hl) hmono2
      · exact hrest nd2 (by assumption) l hl

/-! ## Value lemmas for sampled destinations and groups -/

theorem except_map_ok {e : Except Err α} {f : α → β} {y : β}
    (h : e.map f = .ok y) : ∃ x, e = .ok x ∧ y = f x := by
  cases e with
  | error e2 => simp [Except.map] at h
  | ok x =>
    simp only [Except.map] at h
    injection h with h1
    exact ⟨x, rfl, h1.symm⟩

theorem sample_destinations_uniform_vals {devs : List String} :
    ∀ {names : List String} {rng : List Nat} {dict : Dict String} {rng1 : List Nat},
    sample_destinations_uniform devs names rng = .ok (dict, rng1) →
    ∀ p ∈ dict, p.2 ∈ devs := by
  intro names
  induction names with
  | nil =>
    intro rng dict rng1 h p hp
    simp only [sample_destinations_uniform] at h
    injection h with h1
    obtain ⟨rfl, -⟩ := Prod.mk.injEq .. ▸ h1
    cases hp
  | cons n ns ih =>
    intro rng dict rng1 h p hp
    simp only [sample_destinations_uniform] at h
    split at h
    · exact Except.noConfusion h
    next d rngA heq =>
      split at h
      · exact Except.noConfusion h
      next dict2 rngB heq2 =>
        injection h with h1
        obtain ⟨rfl, -⟩ := Prod.mk.injEq .. ▸ h1
        rw [List.mem_cons] at hp
        rcases hp with hp | hp
        · subst hp
          exact uniform_mem heq
        · exact ih heq2 p hp

theorem argmin_aux_lt : ∀ (xs : List ℚ) (i best : Nat) (bv : ℚ) (n : Nat),
    best < n → i + xs.length ≤ n → argmin_aux xs i best bv < n := by
  intro xs
  induction xs with
  | nil =>
    intro i best bv n h1 h2
    simpa [argmin_aux] using h1
  | cons x xs ih =>
    intro i best bv n h1 h2
    rw [List.length_cons] at h2
    simp only [argmin_aux]
    split
    · exact ih (i + 1) i x n (by omega) (by omega)
    · exact ih (i + 1) best bv n h1 (by omega)

theorem argminIdx_lt {l : List ℚ} (h : l ≠ []) : argminIdx l < l.length := by
  match l with
  | [] => exact absurd rfl h
  | x :: xs =>
    simp only [argminIdx, List.length_cons]
    exact argmin_aux_lt xs 1 0 x (xs.length + 1) (by omega) (by omega)

theorem greedy_assign_vals {devices : List String} (hdev : devices ≠ []) :
    ∀ (items : List (String × ℚ)) (loads : List ℚ) (acc : Dict String),
    loads.length = devices.length → (∀ p ∈ acc, p.2 ∈ devices) →
    ∀ p ∈ greedy_assign devices items loads acc, p.2 ∈ devices := by
  intro items
  induction items with
  | nil =>
    intro loads acc hlen hacc p hp
    simpa [greedy_assign] using hacc p hp
  | cons nb rest ih =>
    intro loads acc hlen hacc p hp
    obtain ⟨n, b⟩ := nb
    simp only [greedy_assign] at hp
    refine ih _ _ (by rw [List.length_set]; exact hlen) ?_ p hp
    intro q hq
    rcases mem_dinsert hq with h2 | h2
    · subst h2
      have hdl : devices.length ≠ 0 := fun hc => hdev (List.length_eq_zero.mp hc)
      have hloads : loads ≠ [] := fun hc => hdl (by rw [← hlen, hc]; rfl)
      have hlt : argminIdx loads < devices.length := hlen ▸ argminIdx_lt hloads
      exact getD_mem_of_lt _ _ _ hlt
    · exact hacc q h2

theorem greedy_load_balancer_vals {ps_shards : Dict Nat} {rs : ResourceSpec}
    {helpers : Dict Helper} {sort : Bool} {dict : Dict String}
    (h : greedy_load_balancer ps_shards rs helpers sort = .ok dict) :
    ∀ p ∈ dict, p.2 ∈ rs.cpu_devices := by
  unfold greedy_load_balancer at h
  split at h
  · exact Except.noConfusion h
  next hne =>
    split at h
    · exact Except.noConfusion h
    next sized heq =>
      injection h with h1
      subst h1
      exact greedy_assign_vals (fun hc => hne (by rw [hc]; rfl)) _ _ _
        (List.length_replicate ..) (fun q hq => absurd hq (List.not_mem_nil q))

theorem round_robin_vals {devices : List String} (hdev : devices ≠ []) :
    ∀ (names : List String) (i : Nat) (acc : Dict String),
    (∀ p ∈ acc, p.2 ∈ devices) →
    ∀ p ∈ round_robin_assign devices names i acc, p.2 ∈ devices := by
  intro names
  induction names with
  | nil =>
    intro i acc hacc p hp
    simpa [round_robin_assign] using hacc p hp
  | cons n ns ih =>
    intro i acc hacc p hp
    simp only [round_robin_assign] at hp
    refine ih _ _ ?_ p hp
    intro q hq
    rcases mem_dinsert hq with h2 | h2
    · subst h2
      have hlt : i % devices.length < devices.length :=
        Nat.mod_lt _ (Nat.pos_of_ne_zero (fun hc => hdev (List.length_eq_zero.mp hc)))
      exact getD_mem_of_lt _ _ _ hlt
    · exact hacc q h2

theorem christy_load_balancer_vals {ps_shards : Dict Nat} {rs : ResourceSpec}
    {helpers : Dict Helper} {sort : Bool} {dict : Dict String}
    (h : christy_load_balancer ps_shards rs helpers sort = .ok dict) :
    ∀ p ∈ dict, p.2 ∈ rs.cpu_devices := by
  unfold christy_load_balancer at h
  split at h
  · exact Except.noConfusion h
  next hne =>
    split at h
    · exact Except.noConfusion h
    next sized heq =>
      injection h with h1
      subst h1
      exact round_robin_vals (fun hc => hne (by rw [hc]; rfl)) _ _ _
        (fun q hq => absurd hq (List.not_mem_nil q))

theorem attach_values_vals (P : α → Prop) {vals : Dict α}
    (hv : ∀ q ∈ vals, P q.2) :
    ∀ {shards : Dict Nat} {res : Dict (Nat × α)},
    attach_values vals shards = .ok res → ∀ p ∈ res, P p.2.2 := by
  intro shards
  induction shards with
  | nil =>
    intro res h p hp
    simp only [attach_values] at h
    injection h with h1
    subst h1
    cases hp
  | cons q rest ih =>
    intro res h p hp
    obtain ⟨n, i⟩ := q
    simp only [attach_values] at h
    split at h
    · exact Except.noConfusion h
    next v heq =>
      split at h
      · exact Except.noConfusion h
      next r2 heq2 =>
        injection h with h1
        subst h1
        rw [List.mem_cons] at hp
        rcases hp with hp | hp
        · subst hp
          exact hv (n, v) (dget_mem heq)
        · exact ih heq2 p hp

theorem zip_assignments_vals :
    ∀ {names : List String} {gs : List Nat} {d : Dict Nat},
    zip_assignments names gs = .ok d → ∀ p ∈ d, p.2 ∈ gs := by
  intro names
  induction names with
  | nil =>
    intro gs d h p hp
    simp only [zip_assignments] at h
    injection h with h1
    subst h1
    cases hp
  | cons n ns ih =>
    intro gs d h p hp
    cases gs with
    | nil =>
      simp only [zip_assignments] at h
      exact Except.noConfusion h
    | cons g gs2 =>
      simp only [zip_assignments] at h
      split at h
      · exact Except.noConfusion h
      next d2 heq =>
        injection h with h1
        subst h1
        rw [List.mem_cons] at hp
        rcases hp with hp | hp
        · subst hp
          exact List.mem_cons_self ..
        · exact List.mem_cons_of_mem _ (ih heq p hp)

theorem merge_loop_lt {k : Nat} (hk : 0 < k) :
    ∀ (n : Nat) (rng : List Nat) (g : Nat),
    g ∈ (sample_merge_group_loop k n rng).1 → g < k := by
  intro n
  induction n with
  | zero =>
    intro rng g hg
    simp [sample_merge_group_loop] at hg
  | succ m ih =>
    intro rng g hg
    simp only [sample_merge_group_loop] at hg
    rw [List.mem_cons] at hg
    rcases hg with hg | hg
    · subst hg
      exact Nat.mod_lt _ hk
    · exact ih _ g hg

theorem chunk_assign_vals {c : Nat} :
    ∀ (names : List String) (i : Nat) (p : String × Nat),
    p ∈ chunk_assign c names i → ∃ j, i ≤ j ∧ j < i + names.length ∧ p.2 = j / c := by
  intro names
  induction names with
  | nil =>
    intro i p hp
    simp [chunk_assign] at hp
  | cons n ns ih =>
    intro i p hp
    simp only [chunk_assign] at hp
    rw [List.mem_cons] at hp
    rcases hp with hp | hp
    · subst hp
      exact ⟨i, Nat.le_refl i, by simp, rfl⟩
    · obtain ⟨j, hj1, hj2, hj3⟩ := ih (i + 1) p hp
      refine ⟨j, by omega, ?_, hj3⟩
      rw [List.length_cons]
      omega

theorem chunk_assign_bound {c : Nat} (names : List String) :
    ∀ p ∈ chunk_assign c names 0, p.2 < (names.length - 1) / c + 1 := by
  intro p hp
  obtain ⟨j, hj0, hjlen, hjval⟩ := chunk_assign_vals names 0 p hp
  rw [hjval]
  have hle : j ≤ names.length - 1 := by omega
  have h2 : j / c ≤ (names.length - 1) / c := Nat.div_le_div_right hle
  omega

theorem modulo_assign_vals {k : Nat} (hk : 0 < k) :
    ∀ (names : List String) (i : Nat) (p : String × Nat),
    p ∈ modulo_assign k names i → p.2 < k := by
  intro names
  induction names with
  | nil =>
    intro i p hp
    simp [modulo_assign] at hp
  | cons n ns ih =>
    intro i p hp
    simp only [modulo_assign] at hp
    rw [List.mem_cons] at hp
    rcases hp with hp | hp
    · subst hp
      exact Nat.mod_lt _ hk
    · exact ih (i + 1) p hp

/-! ## Assignment lemmas -/

theorem set_reduction_destination_spec {psd : Dict (Nat × String)} {l0 l1 : Node}
    (h : set_reduction_destination psd l0 = .ok l1) :
    l1.var_name = l0.var_name ∧ l1.partitioner = l0.partitioner ∧
    l1.part_config = l0.part_config ∧
    ((∃ p0 i d, l0.synchronizer = some (.PS p0) ∧ dget l0.var_name psd = some (i, d) ∧
        l1.synchronizer = some (.PS { p0 with reduction_destination := some d })) ∨
     (∃ a, l0.synchronizer = some (.AR a) ∧ l1 = l0)) := by
  unfold set_reduction_destination at h
  split at h
  · exact Except.noConfusion h
  next s heq =>
    split at h
    · exact Except.noConfusion h
    next p heq2 =>
      injection h with h1
      subst h1
      exact ⟨rfl, rfl, rfl, Or.inl ⟨s, p.1, p.2, heq, heq2, rfl⟩⟩
  next a heq =>
    injection h with h1
    subst h1
    exact ⟨rfl, rfl, rfl, Or.inr ⟨a, heq, rfl⟩⟩

theorem set_group_spec {ard : Dict (Nat × Nat)} {l1 l2 : Node}
    (h : set_group ard l1 = .ok l2) :
    l2.var_name = l1.var_name ∧ l2.partitioner = l1.partitioner ∧
    l2.part_config = l1.part_config ∧
    ((∃ a i g, l1.synchronizer = some (.AR a) ∧ dget l1.var_name ard = some (i, g) ∧
        l2.synchronizer = some (.AR { a with group := some g })) ∨
     (∃ p, l1.synchronizer = some (.PS p) ∧ l2 = l1)) := by
  unfold set_group at h
  split at h
  · exact Except.noConfusion h
  next a heq =>
    split at h
    · exact Except.noConfusion h
    next p heq2 =>
      injection h with h1
      subst h1
      exact ⟨rfl, rfl, rfl, Or.inl ⟨a, p.1, p.2, heq, heq2, rfl⟩⟩
  next p heq =>
    injection h with h1
    subst h1
    exact ⟨rfl, rfl, rfl, Or.inr ⟨p, heq, rfl⟩⟩

theorem assign_node_destination_leaves {psd : Dict (Nat × String)} {nd0 nd1 : Node}
    (h : assign_node_destination psd nd0 = .ok nd1) :
    ∀ l1 ∈ nd1.leaves, ∃ l0 ∈ nd0.leaves, set_reduction_destination psd l0 = .ok l1 := by
  obtain ⟨vn, pt, sy, pc⟩ := nd0
  unfold assign_node_destination at h
  split at h
  next hpart =>
    have hpt : pt = [] := hpart
    subst hpt
    intro l1 hl1
    have hspec := set_reduction_destination_spec h
    have hpart1 : nd1.partitioner = [] := hspec.2.1.trans hpart
    simp only [Node.leaves, if_pos hpart1, List.mem_singleton] at hl1
    subst hl1
    refine ⟨Node.mk vn [] sy pc, ?_, h⟩
    simp [Node.leaves, Node.partitioner]
  next hpart =>
    have hpt : ¬pt = [] := hpart
    split at h
    · exact Except.noConfusion h
    next parts heq =>
      injection h with h1
      subst h1
      intro l1 hl1
      simp only [Node.leaves, Node.var_name, Node.partitioner, Node.synchronizer,
        Node.part_config, if_neg hpt] at hl1
      obtain ⟨l0, hl0, hf⟩ := mapE_mem_right heq hl1
      refine ⟨l0, ?_, hf⟩
      simp only [Node.leaves, Node.partitioner, Node.part_config, if_neg hpt]
      exact hl0

theorem assign_node_group_leaves {ard : Dict (Nat × Nat)} {nd1 nd2 : Node}
    (h : assign_node_group ard nd1 = .ok nd2) :
    ∀ l2 ∈ nd2.leaves, ∃ l1 ∈ nd1.leaves, set_group ard l1 = .ok l2 := by
  obtain ⟨vn, pt, sy, pc⟩ := nd1
  unfold assign_node_group at h
  split at h
  next hpart =>
    have hpt : pt = [] := hpart
    subst hpt
    intro l2 hl2
    have hspec := set_group_spec h
    have hpart2 : nd2.partitioner = [] := hspec.2.1.trans hpart
    simp only [Node.leaves, if_pos hpart2, List.mem_singleton] at hl2
    subst hl2
    refine ⟨Node.mk vn [] sy pc, ?_, h⟩
    simp [Node.leaves, Node.partitioner]
  next hpart =>
    have hpt : ¬pt = [] := hpart
    split at h
    · exact Except.noConfusion h
    next parts heq =>
      injection h with h1
      subst h1
      intro l2 hl2
      simp only [Node.leaves, Node.var_name, Node.partitioner, Node.synchronizer,
        Node.part_config, if_neg hpt] at hl2
      obtain ⟨l1, hl1, hf⟩ := mapE_mem_right heq hl2
      refine ⟨l1, ?_, hf⟩
      simp only [Node.leaves, Node.partitioner, Node.part_config, if_neg hpt]
      exact hl1

theorem assign_ps_leaves {psd : Dict (Nat × String)} {nodes nodes1 : List Node}
    (h : assign_ps_reduction_destinations nodes psd = .ok nodes1) :
    ∀ nd1 ∈ nodes1, ∀ l1 ∈ nd1.leaves,
    ∃ nd0 ∈ nodes, ∃ l0 ∈ nd0.leaves, set_reduction_destination psd l0 = .ok l1 := by
  intro nd1 hnd1 l1 hl1
  obtain ⟨nd0, hnd0, hf⟩ := mapE_mem_right h hnd1
  obtain ⟨l0, hl0, hg⟩ := assign_node_destination_leaves hf l1 hl1
  exact ⟨nd0, hnd0, l0, hl0, hg⟩

theorem assign_ar_leaves {ard : Dict (Nat × Nat)} {nodes1 nodes2 : List Node}
    (h : assign_ar_group nodes1 ard = .ok nodes2) :
    ∀ nd2 ∈ nodes2, ∀ l2 ∈ nd2.leaves,
    ∃ nd1 ∈ nodes1, ∃ l1 ∈ nd1.leaves, set_group ard l1 = .ok l2 := by
  intro nd2 hnd2 l2 hl2
  obtain ⟨nd1, hnd1, hf⟩ := mapE_mem_right h hnd2
  obtain ⟨l1, hl1, hg⟩ := assign_node_group_leaves hf l2 hl2
  exact ⟨nd1, hnd1, l1, hl1, hg⟩


theorem sample_ps_destinations_vals {ps_shards : Dict Nat} {rs : ResourceSpec}
    {helpers : Dict Helper} {heuristics : Heuristics} {rng : List Nat}
    {dict : Dict String} {rngA : List Nat}
    (h : sample_ps_destinations ps_shards rs helpers heuristics rng = .ok (dict, rngA)) :
    ∀ p ∈ dict, p.2 ∈ rs.cpu_devices := by
  unfold sample_ps_destinations at h
  split at h
  · exact fun q hq => sample_destinations_uniform_vals h q hq
  next lb =>
    split at h
    · obtain ⟨x, hx, hxy⟩ := except_map_ok h
      obtain ⟨rfl, -⟩ := Prod.mk.injEq .. ▸ hxy
      exact greedy_load_balancer_vals hx
    · split at h
      · obtain ⟨x, hx, hxy⟩ := except_map_ok h
        obtain ⟨rfl, -⟩ := Prod.mk.injEq .. ▸ hxy
        exact christy_load_balancer_vals hx
      · split at h
        · obtain ⟨x, hx, hxy⟩ := except_map_ok h
          obtain ⟨rfl, -⟩ := Prod.mk.injEq .. ▸ hxy
          exact christy_load_balancer_vals hx
        · split at h
          · obtain ⟨x, hx, hxy⟩ := except_map_ok h
            obtain ⟨rfl, -⟩ := Prod.mk.injEq .. ▸ hxy
            exact greedy_load_balancer_vals hx
          · exact Except.noConfusion h

theorem sample_ps_stage {nodes : List Node} {ps_shards : Dict Nat} {rs : ResourceSpec}
    {helpers : Dict Helper} {heuristics : Heuristics} {rng : List Nat}
    {nodes1 : List Node} {rng1 : List Nat}
    (h : sample_ps_reduction_destinations nodes ps_shards rs helpers heuristics rng =
      .ok (nodes1, rng1)) :
    ∃ psd, (∀ p ∈ psd, p.2.2 ∈ rs.cpu_devices) ∧
      assign_ps_reduction_destinations nodes psd = .ok nodes1 := by
  unfold sample_ps_reduction_destinations at h
  split at h
  · exact Except.noConfusion h
  next destinations rngB heq =>
    split at h
    · exact Except.noConfusion h
    next psd heq2 =>
      split at h
      · exact Except.noConfusion h
      next nodesA heq3 =>
        injection h with h1
        obtain ⟨rfl, -⟩ := Prod.mk.injEq .. ▸ h1
        exact ⟨psd, attach_values_vals (fun d => d ∈ rs.cpu_devices)
          (sample_ps_destinations_vals heq) heq2, heq3⟩

theorem dispatch_group_assignments_vals {ar_shards : Dict Nat} {helpers : Dict Helper}
    {heuristics : Heuristics} {csng : Int} {rng1 : List Nat} {ga : Dict Nat}
    {rng2 : List Nat} (hpos : ¬csng ≤ 0)
    (h : dispatch_group_assignments ar_shards helpers heuristics csng rng1 =
      .ok (ga, rng2)) :
    ∃ k, 0 < k ∧ ∀ q ∈ ga, q.2 < k := by
  unfold dispatch_group_assignments at h
  split at h
  · split at h
    · exact Except.noConfusion h
    next tmp rngC heqm =>
      split at h
      · exact Except.noConfusion h
      next ga2 heqz =>
        injection h with h2
        obtain ⟨rfl, -⟩ := Prod.mk.injEq .. ▸ h2
        refine ⟨csng.toNat, by omega, ?_⟩
        intro q hq
        have hmem := zip_assignments_vals heqz q hq
        unfold sample_merge_group at heqm
        rw [if_neg hpos] at heqm
        injection heqm with h3
        have h4 : (sample_merge_group_loop csng.toNat ar_shards.length rng1).1 = tmp :=
          congrArg Prod.fst h3
        rw [← h4] at hmem
        exact merge_loop_lt (by omega) _ _ _ hmem
  · split at h
    · obtain ⟨x, hx, hxy⟩ := except_map_ok h
      obtain ⟨rfl, -⟩ := Prod.mk.injEq .. ▸ hxy
      unfold chunk_group_assigner at hx
      rw [if_neg hpos] at hx
      injection hx with h3
      subst h3
      exact ⟨((ar_shards.map Prod.fst).length - 1) / csng.toNat + 1, Nat.succ_pos _,
        chunk_assign_bound _⟩
    · split at h
      · obtain ⟨x, hx, hxy⟩ := except_map_ok h
        obtain ⟨rfl, -⟩ := Prod.mk.injEq .. ▸ hxy
        unfold christy_group_assigner at hx
        rw [if_neg hpos] at hx
        injection hx with h3
        subst h3
        exact ⟨csng.toNat, by omega, fun q hq => modulo_assign_vals (by omega) _ _ q hq⟩
      · split at h
        · obtain ⟨x, hx, hxy⟩ := except_map_ok h
          obtain ⟨rfl, -⟩ := Prod.mk.injEq .. ▸ hxy
          unfold ordered_balanced_group_assigner at hx
          rw [if_neg hpos] at hx
          split at hx
          · exact Except.noConfusion hx
          next sized heqs =>
            injection hx with h3
            subst h3
            exact ⟨csng.toNat, by omega,
              fun q hq => modulo_assign_vals (by omega) _ _ q hq⟩
        · exact Except.noConfusion h

theorem sample_ar_stage {nodes1 : List Node} {ar_shards : Dict Nat} {helpers : Dict Helper}
    {heuristics : Heuristics} {rng : List Nat} {nodes2 : List Node} {rng2 : List Nat}
    (h : sample_ar_groups nodes1 ar_shards helpers heuristics rng = .ok (nodes2, rng2)) :
    ∃ k ard, 0 < k ∧ (∀ p ∈ ard, p.2.2 < k) ∧ assign_ar_group nodes1 ard = .ok nodes2 := by
  unfold sample_ar_groups at h
  split at h
  · exact Except.noConfusion h
  next csng rngA heq1 =>
    split at h
    · exact Except.noConfusion h
    next hpos =>
      split at h
      · exact Except.noConfusion h
      next ga rngB heq2 =>
        split at h
        · exact Except.noConfusion h
        next ard heq3 =>
          split at h
          · exact Except.noConfusion h
          next nodesB heq4 =>
            injection h with h1
            obtain ⟨rfl, -⟩ := Prod.mk.injEq .. ▸ h1
            obtain ⟨k, hk, hvals⟩ := dispatch_group_assignments_vals hpos heq2
            exact ⟨k, ard, hk, attach_values_vals (fun g => g < k) hvals heq3, heq4⟩

/-! ## Claim C1: the invariants of the completed strategy document -/

theorem leaf_complete_of (devices : List String) (k : Nat) (l : Node)
    (h1 : ∃ s, l.synchronizer = some s)
    (h2 : ∀ p, l.synchronizer = some (.PS p) →
      ∃ d, p.reduction_destination = some d ∧ d ∈ devices)
    (h3 : ∀ a, l.synchronizer = some (.AR a) → ∃ g, a.group = some g ∧ g < k) :
    leaf_complete devices k l := by
  obtain ⟨s, hs⟩ := h1
  unfold leaf_complete
  rw [hs]
  cases s with
  | PS p => exact h2 p hs
  | AR a => exact h3 a hs

theorem sample_group_post {nodes : List Node} {rs : ResourceSpec} {helpers : Dict Helper}
    {heuristics : Heuristics} {rng : List Nat} {nodes2 : List Node} {rng2 : List Nat}
    (h : sample_group_and_reduction_destinations nodes rs helpers heuristics rng =
      .ok (nodes2, rng2)) :
    ∃ k, 0 < k ∧ ∀ nd ∈ nodes2, node_complete rs.cpu_devices k nd := by
  unfold sample_group_and_reduction_destinations at h
  split at h
  · exact Except.noConfusion h
  next st heqc =>
    obtain ⟨hincl, -⟩ := classify_nodes_post heqc
    split at h
    · exact Except.noConfusion h
    next nodes1 rngA heqps =>
      have hps : ∀ nd1 ∈ nodes1, ∀ l1 ∈ nd1.leaves,
          (∃ s, l1.synchronizer = some s) ∧
          (∀ p, l1.synchronizer = some (.PS p) →
            ∃ d, p.reduction_destination = some d ∧ d ∈ rs.cpu_devices) ∧
          (∀ a, l1.synchronizer = some (.AR a) →
            (dget l1.var_name st.ar_shards).isSome = true) := by
        split at heqps
        next hlen =>
          obtain ⟨psd, hpsd, hassign⟩ := sample_ps_stage heqps
          intro nd1 hnd1 l1 hl1
          obtain ⟨nd0, hnd0, l0, hl0, hset⟩ := assign_ps_leaves hassign nd1 hnd1 l1 hl1
          obtain ⟨hvn, hpt, hpc, hdisj⟩ := set_reduction_destination_spec hset
          obtain ⟨hsome0, hps0, har0⟩ := hincl nd0 hnd0 l0 hl0
          rcases hdisj with ⟨p0, i, d, hl0s, hdget, hl1s⟩ | ⟨a, hl0s, hl1eq⟩
          · refine ⟨⟨_, hl1s⟩, ?_, ?_⟩
            · intro p hp
              rw [hl1s] at hp
              injection hp with hp2
              injection hp2 with hp3
              subst hp3
              exact ⟨d, rfl, hpsd (l0.var_name, (i, d)) (dget_mem hdget)⟩
            · intro a ha
              rw [hl1s] at ha
              simp at ha
          · subst hl1eq
            refine ⟨hsome0, ?_, ?_⟩
            · intro p hp
              rw [hl0s] at hp
              simp at hp
            · intro a2 ha2
              rw [hvn]
              exact har0 a2 ha2
        next hlen =>
          injection heqps with h1
          obtain ⟨rfl, -⟩ := Prod.mk.injEq .. ▸ h1
          intro nd1 hnd1 l1 hl1
          obtain ⟨hsome, hpsX, harX⟩ := hincl nd1 hnd1 l1 hl1
          refine ⟨hsome, ?_, harX⟩
          intro p hp
          have hIn := hpsX p hp
          have hempty : st.ps_shards = [] := List.length_eq_zero.mp (by omega)
          rw [hempty] at hIn
          simp [dget] at hIn
      split at h
      next hlen2 =>
        obtain ⟨k, ard, hk, hvals, hassign⟩ := sample_ar_stage h
        refine ⟨k, hk, ?_⟩
        intro nd2 hnd2 l2 hl2
        obtain ⟨nd1, hnd1, l1, hl1, hset⟩ := assign_ar_leaves hassign nd2 hnd2 l2 hl2
        obtain ⟨hvn, hpt, hpc, hdisj⟩ := set_group_spec hset
        obtain ⟨hsome1, hps1, har1⟩ := hps nd1 hnd1 l1 hl1
        rcases hdisj with ⟨a, i, g, hl1s, hdget, hl2s⟩ | ⟨p, hl1s, hl2eq⟩
        · refine leaf_complete_of _ _ _ ⟨_, hl2s⟩ ?_ ?_
          · intro p hp
            rw [hl2s] at hp
            simp at hp
          · intro a2 ha2
            rw [hl2s] at ha2
            injection ha2 with ha3
            injection ha3 with ha4
            subst ha4
            exact ⟨g, rfl, hvals (l1.var_name, (i, g)) (dget_mem hdget)⟩
        · subst hl2eq
          exact leaf_complete_of _ _ _ ⟨_, hl1s⟩ hps1
            (fun a ha => absurd (hl1s.symm.trans ha) (by simp))
      next hlen2 =>
        injection h with h1
        obtain ⟨rfl, -⟩ := Prod.mk.injEq .. ▸ h1
        refine ⟨1, Nat.one_pos, ?_⟩
        intro nd2 hnd2 l2 hl2
        obtain ⟨hsome, hps2, har2⟩ := hps nd2 hnd2 l2 hl2
        refine leaf_complete_of _ _ _ hsome hps2 ?_
        intro a ha
        have hIn := har2 a ha
        have hempty : st.ar_shards = [] := List.length_eq_zero.mp (by omega)
        rw [hempty] at hIn
        simp [dget] at hIn

/-- C1: when a sampling call (`build`) completes with a strategy document,
every leaf record of that document (an unpartitioned node, or one shard of a
partitioned node) has exactly one synchronizer variant active; every record
whose active variant is the centralized (PS) one carries a reduction
destination drawn from the cluster's aggregation-device list, and every
record whose active variant is the decentralized (AllReduce) one carries a
group id in `[0, k)` for one positive resolved group count `k`. -/
theorem c1_build_invariants (sampler : RandomStrategySampler) (graph_item : GraphItem)
    (resource_spec : ResourceSpec) (rng : List Nat) (strat : Strategy)
    (rngOut : List Nat) (sampler1 : RandomStrategySampler)
    (hok : sampler.build graph_item resource_spec rng = (.ok (strat, rngOut), sampler1)) :
    ∃ k, 0 < k ∧ ∀ nd ∈ strat.node_config,
      node_complete resource_spec.cpu_devices k nd := by
  unfold RandomStrategySampler.build at hok
  split at hok
  · exact absurd (congrArg Prod.fst hok) (by simp)
  next node_config rngA helpers1 heql =>
    split at hok
    · exact absurd (congrArg Prod.fst hok) (by simp)
    next nodes2 rngB heqg =>
      have h1 := congrArg Prod.fst hok
      simp only at h1
      injection h1 with h2
      obtain ⟨h3, -⟩ := Prod.mk.injEq .. ▸ h2
      obtain ⟨k, hk, hall⟩ := sample_group_post heqg
      refine ⟨k, hk, ?_⟩
      rw [← h3]
      exact hall

/-- Witness for C1: the invariants of the concrete strategy document built
by `sampler_ok`, obtained by applying the invariant theorem to that
successful build. -/
theorem c1_witness :
    ∃ k, 0 < k ∧ ∀ nd ∈ strat_ok.node_config,
      node_complete rs_1g1c.cpu_devices k nd :=
  c1_build_invariants sampler_ok graph_dense rs_1g1c [0, 0] strat_ok [] sampler_ok rfl
